import Mathlib

/-!
Verification of the bias detection and scoring engine
(`src/backend/bias_engine.py`) against its specification.

The Python module is shallowly embedded: Python `str` becomes `String`,
Python `float` becomes `ℚ` (the scoring arithmetic is exact decimal
arithmetic at this granularity), Python `int` becomes `ℤ`/`ℕ`, dictionaries
with a fixed key set become structures, and code that can raise becomes
`Except String`.  The process-wide classifier singleton and the HF model
call are external collaborators; they are modelled by an injected
`EntailmentProvider` record whose operations may fail, exactly the contract
`get_classifier` / `_mnli_entailment_probs` expose to the scoring code.
Logging and wall-clock latency fields are not modelled.
-/

/- Batteries seals the rational arithmetic operations; reopen them so that
concrete runs of the scoring pipeline evaluate by `decide`. -/
unseal Rat.ofScientific Rat.mul Rat.inv Rat.add Rat.sub

/-- Python `\\w` word characters (ASCII range), used for `\\b` boundaries in
`detect_bias_keywords` single-word patterns. -/
def isWordChar (c : Char) : Bool := c.isAlphanum || c = '_'

/-- Substring containment (Python `needle in hay`) over character lists. -/
def containsSub : List Char → List Char → Bool
  | needle, [] => needle.isEmpty
  | needle, c :: rest => needle.isPrefixOf (c :: rest) || containsSub needle rest

/-- Membership of `needle` as a substring of `hay`, on `String`s. -/
def hasSub (needle hay : String) : Bool := containsSub needle.toList hay.toList

/-- Python `str.lower()` over a character list (the texts at stake are ASCII). -/
def lowerChars (l : List Char) : List Char := l.map Char.toLower

/-- Lower-cased form of a string, as a character list. -/
def lowerOf (s : String) : List Char := lowerChars s.toList

/-- Python `"sub" in s.lower()`. -/
def hasSubLower (needle s : String) : Bool := containsSub needle.toList (lowerOf s)

/-- Whether the previous character (none at the string start) ends a word,
i.e. `\\b` holds before a pattern that starts with a word character. -/
def boundaryBefore : Option Char → Bool
  | none => true
  | some c => !isWordChar c

/-- Whether pattern `p` (which starts and ends with a word character, as every
single-word phrase in `BIAS_PHRASES` does) matches at the head of `l` with
`\\b` on both sides, `prev` being the character before `l`. -/
def wbMatchHere (p l : List Char) (prev : Option Char) : Bool :=
  boundaryBefore prev && p.isPrefixOf l &&
    (match l.drop p.length with
     | [] => true
     | c :: _ => !isWordChar c)

/-- Search for a `\\b p \\b` match anywhere in the text
(`re.search` of `r'\\b' + re.escape(phrase) + r'\\b'` for a one-word phrase). -/
def wbSearch (p : List Char) : Option Char → List Char → Bool
  | prev, [] => wbMatchHere p [] prev
  | prev, c :: rest => wbMatchHere p (c :: rest) prev || wbSearch p (some c) rest

/-- Python `str.split()` (split on whitespace runs, dropping empty pieces),
over a character list; `acc` holds the current word reversed. -/
def splitWsAux : List Char → List Char → List (List Char)
  | [], acc => if acc.isEmpty then [] else [acc.reverse]
  | c :: rest, acc =>
    if c.isWhitespace then
      if acc.isEmpty then splitWsAux rest [] else acc.reverse :: splitWsAux rest []
    else splitWsAux rest (c :: acc)

/-- Python `str.split()` on a string. -/
def pySplitWs (s : String) : List (List Char) := splitWsAux s.toList []

/-- Join word lists with single spaces (Python `' '.join(words)`). -/
def joinSpaces : List (List Char) → List Char
  | [] => []
  | [w] => w
  | w :: ws => w ++ ' ' :: joinSpaces ws

/-- The normalization of `detect_bias_keywords`:
`' '.join(text.lower().split())`, as a character list. -/
def normalizeText (s : String) : List Char := joinSpaces (splitWsAux (lowerOf s) [])

/-- Python `len(text.strip()) == 0` (with `not text` subsumed): every
character is whitespace. -/
def isBlank (s : String) : Bool := s.toList.all Char.isWhitespace

/-- Python `str.strip()` over a character list. -/
def trimChars (l : List Char) : List Char :=
  ((l.dropWhile Char.isWhitespace).reverse.dropWhile Char.isWhitespace).reverse

/-- One entry of the unified bias phrase dictionary: phrase, inclusive
replacement, high-level category. -/
structure PhraseEntry where
  phrase : String
  replacement : String
  category : String
deriving Repr, DecidableEq

set_option maxHeartbeats 1600000 in
/-- The unified bias phrase dictionary `BIAS_PHRASES`, in source order. -/
def BIAS_PHRASES : List PhraseEntry := [
  ⟨"rockstar", "high-performing professional", "masculine_coded"⟩,
  ⟨"ninja", "skilled professional", "masculine_coded"⟩,
  ⟨"guru", "subject matter expert", "masculine_coded"⟩,
  ⟨"hustle", "dedication", "masculine_coded"⟩,
  ⟨"crush it", "excel", "masculine_coded"⟩,
  ⟨"aggressive", "proactive and results-driven", "masculine_coded"⟩,
  ⟨"dominant", "strong leadership", "masculine_coded"⟩,
  ⟨"forceful", "persuasive", "masculine_coded"⟩,
  ⟨"assertive personality", "strong communication skills", "masculine_coded"⟩,
  ⟨"leadership presence", "leadership capabilities", "masculine_coded"⟩,
  ⟨"male applicants preferred", "", "masculine_coded"⟩,
  ⟨"male preferred", "", "masculine_coded"⟩,
  ⟨"men preferred", "", "masculine_coded"⟩,
  ⟨"strong", "proven", "masculine_coded"⟩,
  ⟨"drive", "steer", "masculine_coded"⟩,
  ⟨"lead", "manage", "masculine_coded"⟩,
  ⟨"analysis", "research", "masculine_coded"⟩,
  ⟨"individuals", "team members", "masculine_coded"⟩,
  ⟨"decisions", "actions", "masculine_coded"⟩,
  ⟨"competitive", "results-oriented", "masculine_coded"⟩,
  ⟨"tackle", "solve", "masculine_coded"⟩,
  ⟨"independent", "competent", "masculine_coded"⟩,
  ⟨"nurturing", "supportive", "feminine_coded"⟩,
  ⟨"empathetic", "empathetic", "feminine_coded"⟩,
  ⟨"supportive", "supportive", "feminine_coded"⟩,
  ⟨"caring", "thoughtful", "feminine_coded"⟩,
  ⟨"digital native", "comfortable with modern technology", "age_biased"⟩,
  ⟨"young and energetic", "enthusiastic and motivated", "age_biased"⟩,
  ⟨"young team", "dynamic and collaborative team", "age_biased"⟩,
  ⟨"young professionals", "talented professionals", "age_biased"⟩,
  ⟨"recent graduate", "early-career professional", "age_biased"⟩,
  ⟨"recent college graduate", "early-career professional", "age_biased"⟩,
  ⟨"new graduate", "early-career professional", "age_biased"⟩,
  ⟨"fresh out of college", "early-career professional", "age_biased"⟩,
  ⟨"energetic team", "motivated team", "age_biased"⟩,
  ⟨"under 30", "", "age_biased"⟩,
  ⟨"under 25", "", "age_biased"⟩,
  ⟨"must be eligible to work in the u.s.", "authorization to work in the U.S. required", "exclusionary_language"⟩,
  ⟨"no work visa sponsorship", "work authorization required", "exclusionary_language"⟩,
  ⟨"no visa sponsorship", "work authorization required", "exclusionary_language"⟩,
  ⟨"no sponsorship", "work authorization required", "exclusionary_language"⟩,
  ⟨"unrestricted work authorization", "work authorization support available", "exclusionary_language"⟩,
  ⟨"must already have work authorization", "work authorization support available", "exclusionary_language"⟩,
  ⟨"already authorized to work", "work authorization support available", "exclusionary_language"⟩,
  ⟨"no opt", "", "exclusionary_language"⟩,
  ⟨"no cpt", "", "exclusionary_language"⟩,
  ⟨"not considering opt", "", "exclusionary_language"⟩,
  ⟨"not considering cpt", "", "exclusionary_language"⟩,
  ⟨"no visa transfers", "", "exclusionary_language"⟩,
  ⟨"no transfer visas", "", "exclusionary_language"⟩,
  ⟨"north american applicants only", "", "exclusionary_language"⟩,
  ⟨"must be in north america", "", "exclusionary_language"⟩,
  ⟨"english only", "professional proficiency in English required", "exclusionary_language"⟩,
  ⟨"english-only", "professional proficiency in English required", "exclusionary_language"⟩,
  ⟨"native english speaker", "excellent English communication skills", "exclusionary_language"⟩,
  ⟨"native english speaker only", "excellent English communication skills required", "exclusionary_language"⟩,
  ⟨"native speaker required", "excellent communication skills required", "exclusionary_language"⟩,
  ⟨"native speaker only", "excellent communication skills required", "exclusionary_language"⟩,
  ⟨"strong north american communication", "strong communication skills", "exclusionary_language"⟩,
  ⟨"canadian citizens only", "authorization to work in Canada required", "exclusionary_language"⟩,
  ⟨"u.s. citizen only", "authorization to work in the U.S. required", "exclusionary_language"⟩,
  ⟨"us citizen only", "authorization to work in the U.S. required", "exclusionary_language"⟩,
  ⟨"no international students", "", "exclusionary_language"⟩,
  ⟨"no work-permit holders", "", "exclusionary_language"⟩,
  ⟨"citizens only", "work authorization required", "exclusionary_language"⟩,
  ⟨"local applicants only", "", "exclusionary_language"⟩,
  ⟨"no relocations", "", "exclusionary_language"⟩,
  ⟨"must be local", "", "exclusionary_language"⟩,
  ⟨"no remote", "hybrid or on-site work available", "exclusionary_language"⟩,
  ⟨"work hard play hard", "collaborative and supportive work environment", "cultural_fit"⟩,
  ⟨"work hard, play hard", "collaborative and supportive work environment", "cultural_fit"⟩,
  ⟨"cultural fit", "strong team collaboration", "cultural_fit"⟩,
  ⟨"fit the culture", "collaborate effectively with our team", "cultural_fit"⟩,
  ⟨"fit our culture", "collaborate effectively with our team", "cultural_fit"⟩,
  ⟨"beer fridays", "regular team social events", "cultural_fit"⟩,
  ⟨"after-work drinks", "team social events", "cultural_fit"⟩,
  ⟨"startup culture", "dynamic and innovative environment", "cultural_fit"⟩,
  ⟨"fast-paced environment", "dynamic and fast-paced environment", "cultural_fit"⟩,
  ⟨"like a family", "supportive team environment", "cultural_fit"⟩,
  ⟨"go-getter", "proactive professional", "cultural_fit"⟩,
  ⟨"self-starter", "independent and proactive", "cultural_fit"⟩,
  ⟨"team player", "collaborative team member", "cultural_fit"⟩,
  ⟨"must be able to lift", "", "disability_biased"⟩,
  ⟨"must be able to stand", "", "disability_biased"⟩,
  ⟨"physical requirements", "", "disability_biased"⟩,
  ⟨"able-bodied", "", "disability_biased"⟩,
  ⟨"without accommodation", "with reasonable accommodations as needed", "disability_biased"⟩,
  ⟨"no accommodation", "reasonable accommodations available", "disability_biased"⟩,
  ⟨"must have valid driver's license", "valid driver's license preferred (if travel is required)", "disability_biased"⟩,
  ⟨"personal vehicle required", "access to transportation preferred (if travel is required)", "disability_biased"⟩,
  ⟨"professional appearance", "professional demeanor", "appearance_biased"⟩,
  ⟨"clean-cut appearance", "professional demeanor", "appearance_biased"⟩,
  ⟨"no visible tattoos", "", "appearance_biased"⟩,
  ⟨"no tattoos", "", "appearance_biased"⟩,
  ⟨"no visible piercings", "", "appearance_biased"⟩,
  ⟨"no piercings", "", "appearance_biased"⟩]

/-- The `INTERNATIONAL_HEURISTICS` trigger table: substring → probability
boost, in source order. -/
def INTERNATIONAL_HEURISTICS : List (String × ℚ) := [
  ("unrestricted work authorization", 0.18),
  ("already authorized to work", 0.15),
  ("must already have work authorization", 0.15),
  ("no sponsorship", 0.12),
  ("no visa", 0.12),
  ("visa transfers", 0.12),
  ("opt", 0.1),
  ("cpt", 0.1),
  ("north american", 0.12),
  ("english only", 0.1),
  ("english-only", 0.1),
  ("u.s. work authorization", 0.12),
  ("us work authorization", 0.12),
  ("must be in north america", 0.12),
  ("international candidates", 0.08),
  ("international students", 0.08),
  ("already in the us", 0.1),
  ("already in the u.s.", 0.1)]

/-- Python source, `detect_international_bias_signal`: sum the weights of the
heuristic triggers contained in the lower-cased text, clamped at 0.35. -/
def detect_international_bias_signal (text : String) : ℚ :=
  let text_lower := lowerOf text
  let score := INTERNATIONAL_HEURISTICS.foldl
    (fun acc tw => if containsSub tw.1.toList text_lower then acc + tw.2 else acc) 0
  min 0.35 score

/-- Python source, `calibrate_confidence`: add the 0.15 boost, clamp to [0,1]. -/
def calibrate_confidence (score : ℚ) : ℚ :=
  max 0 (min 1 (score + 0.15))

/-- One category's slot of a keyword analysis: match count and match list. -/
structure CategoryResult where
  count : Nat
  matched : List String
deriving Repr, DecidableEq

/-- The result of `detect_bias_keywords`: a dictionary with exactly the seven
category keys, embedded as a structure with one field per key. -/
structure KeywordAnalysis where
  masculine_coded : CategoryResult
  feminine_coded : CategoryResult
  age_biased : CategoryResult
  exclusionary_language : CategoryResult
  cultural_fit : CategoryResult
  disability_biased : CategoryResult
  appearance_biased : CategoryResult
deriving Repr, DecidableEq

/-- The fully-populated zero result (all categories present, count 0). -/
def emptyKeywordAnalysis : KeywordAnalysis :=
  ⟨⟨0, []⟩, ⟨0, []⟩, ⟨0, []⟩, ⟨0, []⟩, ⟨0, []⟩, ⟨0, []⟩, ⟨0, []⟩⟩

/-- The seven category keys, in the dictionary's insertion order. -/
def keywordCategories : List String :=
  ["masculine_coded", "feminine_coded", "age_biased", "exclusionary_language",
   "cultural_fit", "disability_biased", "appearance_biased"]

/-- Dictionary read `keyword_results.get(key, {})` with defaults: the named
category's slot, a zero slot for an unknown key. -/
def getCategory (kw : KeywordAnalysis) (key : String) : CategoryResult :=
  match key with
  | "masculine_coded" => kw.masculine_coded
  | "feminine_coded" => kw.feminine_coded
  | "age_biased" => kw.age_biased
  | "exclusionary_language" => kw.exclusionary_language
  | "cultural_fit" => kw.cultural_fit
  | "disability_biased" => kw.disability_biased
  | "appearance_biased" => kw.appearance_biased
  | _ => ⟨0, []⟩

/-- On a hit: increment the count, append the phrase if not already present. -/
def addMatch (r : CategoryResult) (phrase : String) : CategoryResult :=
  { count := r.count + 1,
    matched := if phrase ∈ r.matched then r.matched else r.matched ++ [phrase] }

/-- Route a phrase hit to its category's slot (`results[category]`); a
category not among the seven is skipped, as in the source's
`if category not in results: continue`. -/
def applyPhrase (res : KeywordAnalysis) (phrase category : String) : KeywordAnalysis :=
  match category with
  | "masculine_coded" => { res with masculine_coded := addMatch res.masculine_coded phrase }
  | "feminine_coded" => { res with feminine_coded := addMatch res.feminine_coded phrase }
  | "age_biased" => { res with age_biased := addMatch res.age_biased phrase }
  | "exclusionary_language" => { res with exclusionary_language := addMatch res.exclusionary_language phrase }
  | "cultural_fit" => { res with cultural_fit := addMatch res.cultural_fit phrase }
  | "disability_biased" => { res with disability_biased := addMatch res.disability_biased phrase }
  | "appearance_biased" => { res with appearance_biased := addMatch res.appearance_biased phrase }
  | _ => res

/-- Whether a phrase fires on the normalized text: word-boundary regex search
for one-word phrases, substring containment otherwise. -/
def phraseFound (phrase : String) (textNorm : List Char) : Bool :=
  if (pySplitWs phrase).length == 1 then
    wbSearch phrase.toList none textNorm
  else
    containsSub phrase.toList textNorm

/-- Python source, `detect_bias_keywords`: empty or whitespace-only input
returns the zero result; otherwise one pass over `BIAS_PHRASES` against the
lower-cased, whitespace-collapsed text. -/
def detect_bias_keywords (text : String) : KeywordAnalysis :=
  if isBlank text then emptyKeywordAnalysis
  else
    let text_normalized := normalizeText text
    BIAS_PHRASES.foldl
      (fun res e =>
        if phraseFound e.phrase text_normalized then applyPhrase res e.phrase e.category
        else res)
      emptyKeywordAnalysis

/-- Python `round()` to the nearest integer, ties to even (banker's rounding),
as applied by the source to non-negative score floats. -/
def pyRound (q : ℚ) : ℤ :=
  if q - ⌊q⌋ < 1/2 then ⌊q⌋
  else if 1/2 < q - ⌊q⌋ then ⌊q⌋ + 1
  else if ⌊q⌋ % 2 = 0 then ⌊q⌋ else ⌊q⌋ + 1

/-- Python `round(x, n)`. -/
def pyRoundTo (q : ℚ) (n : ℕ) : ℚ := (pyRound (q * 10 ^ n) : ℚ) / 10 ^ n

/-- Python `int()` on a float: truncation toward zero. -/
def pyInt (q : ℚ) : ℤ := if 0 ≤ q then ⌊q⌋ else -⌊-q⌋

/-- Stable descending insertion of a pair into a value-sorted pair list: the
new element goes after every element whose value is not strictly smaller. -/
def insertPairDesc {α β : Type} [LinearOrder β] (x : α × β) :
    List (α × β) → List (α × β)
  | [] => [x]
  | y :: ys => if y.2 < x.2 then x :: y :: ys else y :: insertPairDesc x ys

/-- Python `paired.sort(key=lambda x: x[1], reverse=True)`: a stable sort,
descending by the pair's second component (ties keep input order). -/
def sortPairsDesc {α β : Type} [LinearOrder β] (l : List (α × β)) : List (α × β) :=
  l.foldl (fun acc x => insertPairDesc x acc) []

/-- One sentence-level finding surfaced for remediation (`sentence_insights`
entries); the source's `end` key is embedded as `stop`. -/
structure SentenceInsight where
  sentence : String
  label : String
  score : ℚ
  calibrated_score : ℚ
  confidence_level : String
  start : Nat
  stop : Nat
deriving Repr, DecidableEq

/-- The classification dictionary `analyze_with_classifier` /  the fallback
sites build.  Keys that some paths omit are `Option` fields (`none` = key
absent); the `latency_ms` wall-clock diagnostic is not modelled. -/
structure ClassifierOut where
  labels : List String
  scores : List ℚ
  calibrated_scores : Option (List ℚ)
  error : Option String
  fallback : Option Bool
  provider : Option String
  sentence_insights : List SentenceInsight
deriving Repr, DecidableEq

/-- The external entailment model, as the scoring code sees it: a cached
loader (`get_classifier`, which may raise, identically on every call) and a
batched premise/hypotheses probability call (`_mnli_entailment_probs`, which
may also raise).  `load` yields the provider name on success. -/
structure EntailmentProvider where
  load : Except String String
  entailment_probs : String → List String → Except String (List ℚ)

/-- The candidate bias labels, in source order (`neutral` last). -/
def candidate_labels : List String :=
  ["age-bias", "gender-bias", "culture-fit-bias", "intl-bias",
   "exclusionary-language", "disability-bias", "neutral"]

/-- The MNLI hypothesis for each candidate label. -/
def hypotheses : String → String
  | "age-bias" => "This job posting contains age-related bias or age discrimination."
  | "gender-bias" => "This job posting contains gender-related bias or gender discrimination."
  | "culture-fit-bias" => "This job posting uses cultural fit or culture-related language that may be exclusionary."
  | "intl-bias" => "This job posting discriminates against international students, visa holders, or people who need work authorization support."
  | "exclusionary-language" => "This job posting clearly excludes or discourages certain groups, such as international students, visa holders, or minorities, from applying."
  | "disability-bias" => "This job posting says that candidates who need schedule changes or adjustments due to medical or personal health conditions should not apply, or otherwise refuses reasonable accommodations."
  | "neutral" => "This job posting is neutral and inclusive with no biased language."
  | _ => ""

/-- Characters on which `([^.!?\n\r]+[.!?]?)` cannot continue a run. -/
def isSentenceBreak (c : Char) : Bool :=
  c = '.' || c = '!' || c = '?' || c = '\n' || c = '\r'

/-- Sentence terminators (the optional `[.!?]` tail of the regex). -/
def isTerminator (c : Char) : Bool := c = '.' || c = '!' || c = '?'

/-- The matches of `re.finditer(r'([^.!?\n\r]+[.!?]?)', text)` with their
character spans; `i` is the position of the head of the remaining list, and
the fuel argument (always at least the remaining length at call sites, each
step consuming at least one character) makes the recursion structural. -/
def splitSpansFuel : Nat → List Char → Nat → List (List Char × Nat × Nat)
  | 0, _, _ => []
  | _ + 1, [], _ => []
  | fuel + 1, c :: rest, i =>
    if isSentenceBreak c then splitSpansFuel fuel rest (i + 1)
    else
      let run := (c :: rest).takeWhile (fun d => !isSentenceBreak d)
      match (c :: rest).drop run.length with
      | [] => [(run, i, i + run.length)]
      | t :: rest2 =>
        if isTerminator t then
          (run ++ [t], i, i + run.length + 1) ::
            splitSpansFuel fuel rest2 (i + run.length + 1)
        else
          (run, i, i + run.length) :: splitSpansFuel fuel (t :: rest2) (i + run.length)

/-- Python source, `_split_sentences_with_spans`: regex matches, each
stripped, empties skipped, original (pre-strip) spans kept. -/
def _split_sentences_with_spans (text : String) : List (String × Nat × Nat) :=
  if text = "" then []
  else
    (splitSpansFuel (text.toList.length + 1) text.toList 0).filterMap
      (fun s =>
        let sentence := trimChars s.1
        if sentence.isEmpty then none
        else some (String.mk sentence, s.2.1, s.2.2))

/-- The per-sentence international boost of `_extract_biased_sentences`
(`if sig != 0 and 'intl-bias' in labels_for`): clamp the boosted slot at 1,
an out-of-range index raises. -/
def boostProbs (labels : List String) (sig : ℚ) (probs0 : List ℚ) :
    Except String (List ℚ) :=
  if sig ≠ 0 ∧ "intl-bias" ∈ labels then
    match probs0.get? (labels.indexOf "intl-bias") with
    | some v => .ok (probs0.set (labels.indexOf "intl-bias") (min 1 (v + sig)))
    | none => .error "IndexError: list index out of range"
  else .ok probs0

/-- The top-label selection of `_extract_biased_sentences`: a neutral top is
replaced by an international signal when present (else the sentence is
skipped, `none`); a strong signal overrides a non-international top. -/
def chosenTop (sig : ℚ) : String × ℚ → Option (String × ℚ)
  | (l0, s0) =>
    if l0 = "neutral" then
      if 0 < sig then some ("intl-bias", sig) else none
    else if l0 ≠ "intl-bias" ∧ 0.05 ≤ sig then some ("intl-bias", max s0 sig)
    else some (l0, s0)

/-- A `SentenceInsight` entry as `_extract_biased_sentences` builds it:
scores rounded to 4 decimals, the confidence level tag at threshold 0.4. -/
def insightFor (sentence : String) (start stop : Nat) (p : String × ℚ) :
    SentenceInsight :=
  { sentence := sentence, label := p.1, score := pyRoundTo p.2 4,
    calibrated_score := pyRoundTo (calibrate_confidence p.2) 4,
    confidence_level := if 0.4 ≤ p.2 then "high" else "low",
    start := start, stop := stop }

/-- The per-sentence loop of `_extract_biased_sentences`, with the source's
default parameters `max_sentences = 5`, `min_chars = 25`, `threshold = 0.4`
(all call sites use the defaults); `high`/`low` are the accumulators, and a
provider failure propagates as the exception it is in the source. -/
def extractLoop (P : EntailmentProvider) (labels : List String)
    (hyps : String → String) :
    List (String × Nat × Nat) → List SentenceInsight → List SentenceInsight →
    Except String (List SentenceInsight)
  | [], high, low => .ok ((high ++ low).take 5)
  | (sentence, start, stop) :: rest, high, low =>
    if sentence.length < 25 then extractLoop P labels hyps rest high low
    else
      match P.entailment_probs sentence (labels.map hyps) with
      | .error e => .error e
      | .ok probs0 =>
        match boostProbs labels (detect_international_bias_signal sentence) probs0 with
        | .error e => .error e
        | .ok probs =>
          match (sortPairsDesc (labels.zip probs)).head? with
          | none => .error "IndexError: list index out of range"
          | some p =>
            match chosenTop (detect_international_bias_signal sentence) p with
            | none => extractLoop P labels hyps rest high low
            | some q =>
              if 0.4 ≤ q.2 then
                if 5 ≤ high.length + 1 then
                  .ok (((high ++ [insightFor sentence start stop q]) ++ low).take 5)
                else
                  extractLoop P labels hyps rest
                    (high ++ [insightFor sentence start stop q]) low
              else
                extractLoop P labels hyps rest high
                  (low ++ [insightFor sentence start stop q])

/-- Python source, `_extract_biased_sentences` (the classifier argument is
necessarily non-null on the only call path, so only the text guard remains). -/
def _extract_biased_sentences (P : EntailmentProvider) (text : String)
    (labels : List String) (hyps : String → String) :
    Except String (List SentenceInsight) :=
  if text = "" then .ok []
  else extractLoop P labels hyps (_split_sentences_with_spans text) [] []

/-- Python `text[:1200] if len(text) > 1200 else text` (the token-limit
guard). -/
def textForAnalysis (text : String) : String :=
  if 1200 < text.length then String.mk (text.toList.take 1200) else text

/-- The body of `analyze_with_classifier`'s `try:` block: load the model,
score the document-level hypotheses, boost the international label, sort
descending, calibrate, collect sentence insights.  Any raise becomes
`Except.error`. -/
def analyze_with_classifier_try (P : EntailmentProvider) (text : String) :
    Except String ClassifierOut :=
  P.load >>= fun providerName =>
  P.entailment_probs (textForAnalysis text) (candidate_labels.map hypotheses) >>=
    fun scores0 =>
  (if "intl-bias" ∈ candidate_labels then
     match scores0.get? (candidate_labels.indexOf "intl-bias") with
     | some v =>
       Except.ok (scores0.set (candidate_labels.indexOf "intl-bias")
         (min 1 (v + detect_international_bias_signal (textForAnalysis text))))
     | none => Except.error "IndexError: list index out of range"
   else Except.ok scores0) >>= fun scores =>
  let paired := sortPairsDesc (candidate_labels.zip scores)
  let sorted_scores := paired.map Prod.snd
  _extract_biased_sentences P (textForAnalysis text) candidate_labels hypotheses >>=
    fun sentence_insights =>
  Except.ok { labels := paired.map Prod.fst, scores := sorted_scores,
              calibrated_scores := some (sorted_scores.map calibrate_confidence),
              error := none, fallback := none, provider := some providerName,
              sentence_insights := sentence_insights }

/-- The keyword-inferred classification built in `analyze_with_classifier`'s
except-branch and at both fallback sites of `analyze_full` (the source
repeats this block verbatim): ordered insertion of inferred labels in front
of the neutral default at confidence 0.5. -/
def inferredClassification (keyword_results : KeywordAnalysis) :
    List String × List ℚ :=
  let ls : List String := ["neutral"]
  let ss : List ℚ := [0.5]
  let (ls, ss) :=
    if 0 < keyword_results.exclusionary_language.count then
      ("exclusionary-language" :: ls, 0.8 :: ss)
    else (ls, ss)
  let (ls, ss) :=
    if 0 < keyword_results.masculine_coded.count ∨ 0 < keyword_results.feminine_coded.count then
      ("gender-bias" :: ls, 0.7 :: ss)
    else (ls, ss)
  let (ls, ss) :=
    if 0 < keyword_results.age_biased.count then ("age-bias" :: ls, 0.7 :: ss)
    else (ls, ss)
  (ls, ss)

/-- The except-branch of `analyze_with_classifier`: the keyword fallback
dictionary, carrying the error text and the `fallback` marker. -/
def analyze_with_classifier_fallback (text : String) (e : String) : ClassifierOut :=
  let keyword_results := detect_bias_keywords text
  let (inferred_labels, inferred_scores) := inferredClassification keyword_results
  { labels := inferred_labels.take 6, scores := inferred_scores.take 6,
    calibrated_scores := some ((inferred_scores.take 6).map calibrate_confidence),
    error := some e, fallback := some true, provider := some "keyword_fallback",
    sentence_insights := [] }

/-- Python source, `analyze_with_classifier`: the empty-text early return,
else the try-body with every raise caught into the keyword fallback. -/
def analyze_with_classifier (P : EntailmentProvider) (text : String) : ClassifierOut :=
  if isBlank text then
    { labels := ["neutral"], scores := [1], calibrated_scores := none,
      error := none, fallback := none, provider := none, sentence_insights := [] }
  else
    match analyze_with_classifier_try P text with
    | .ok r => r
    | .error e => analyze_with_classifier_fallback text e

/-- Python `calibrated_scores[0] if calibrated_scores else scores[0]`: a
present, non-empty calibrated list wins, else the head of the raw scores
(the call sites guard `scores` non-empty). -/
def topScoreOf (cls : ClassifierOut) : ℚ :=
  match cls.calibrated_scores with
  | some (c :: _) => c
  | _ => cls.scores.headD 0

/-- The label-specific weights of `calculate_bias_score`
(`label_weights.get(top_label, 12)`). -/
def label_weights (label : String) : ℤ :=
  match label with
  | "exclusionary-language" => 30
  | "disability-bias" => 30
  | "intl-bias" => 32
  | "age-bias" => 24
  | "gender-bias" => 24
  | "culture-fit-bias" => 18
  | _ => 12

/-- The capped keyword-weight sum of `calculate_bias_score` (the loop over
the `weights` dictionary). -/
def keywordBiasBase (keyword_results : KeywordAnalysis) : ℤ :=
  min ((keyword_results.exclusionary_language.count : ℤ) * 15) 30 +
  min ((keyword_results.masculine_coded.count : ℤ) * 10) 30 +
  min ((keyword_results.feminine_coded.count : ℤ) * 8) 30 +
  min ((keyword_results.age_biased.count : ℤ) * 12) 30 +
  min ((keyword_results.cultural_fit.count : ℤ) * 6) 30 +
  min ((keyword_results.disability_biased.count : ℤ) * 14) 30 +
  min ((keyword_results.appearance_biased.count : ℤ) * 12) 30

/-- The label-aware classifier contribution of `calculate_bias_score`:
`int(top_score * base_weight)` behind the non-neutral and 0.25-confidence
guards, 0 otherwise. -/
def classifierBiasAdd (classifier_results : ClassifierOut) : ℤ :=
  if classifier_results.scores ≠ [] ∧ classifier_results.labels ≠ [] then
    if classifier_results.labels.headD "" ≠ "neutral" then
      if 0.25 ≤ topScoreOf classifier_results then
        pyInt (topScoreOf classifier_results *
          (label_weights (classifier_results.labels.headD "") : ℚ))
      else 0
    else 0
  else 0

/-- Python source, `calculate_bias_score`: capped keyword weights plus the
label-aware classifier contribution, clamped at 100. -/
def calculate_bias_score (keyword_results : KeywordAnalysis)
    (classifier_results : ClassifierOut) : ℤ :=
  min (keywordBiasBase keyword_results + classifierBiasAdd classifier_results) 100

/-- The heuristic table local to `calculate_international_bias_score`. -/
def intl_score_heuristics : List (String × ℤ) := [
  ("unrestricted work authorization", 20),
  ("already authorized to work", 15),
  ("must be in north america", 15),
  ("north american applicants only", 20),
  ("opt", 10),
  ("cpt", 10),
  ("english only", 10),
  ("english-only", 10),
  ("already in the us", 12),
  ("already in the u.s.", 12)]

/-- Python source, `calculate_international_bias_score`: weighted counts of
visa-, language- and OPT/CPT-flavoured exclusionary matches, cultural-fit
and age counts, plus raw-text heuristic triggers (skipped for a falsy —
absent or empty — source text), clamped at 100. -/
def calculate_international_bias_score (keyword_results : KeywordAnalysis)
    (source_text : Option String) : ℤ :=
  let ms := keyword_results.exclusionary_language.matched
  let visa_count := (ms.filter (fun m =>
    hasSubLower "visa" m || hasSubLower "sponsorship" m ||
    hasSubLower "eligible to work" m)).length
  let language_count := (ms.filter (fun m =>
    hasSubLower "native" m || hasSubLower "english" m)).length
  let opt_cpt_count := (ms.filter (fun m =>
    hasSubLower "opt" m || hasSubLower "cpt" m)).length
  let score : ℤ := (visa_count : ℤ) * 30 + (language_count : ℤ) * 20 +
    (opt_cpt_count : ℤ) * 25 + (keyword_results.cultural_fit.count : ℤ) * 12 +
    (keyword_results.age_biased.count : ℤ) * 10
  let score : ℤ :=
    match source_text with
    | none => score
    | some t =>
      if t = "" then score
      else
        let text_lower := lowerOf t
        intl_score_heuristics.foldl
          (fun acc tw => if containsSub tw.1.toList text_lower then acc + tw.2 else acc)
          score
  min score 100

/-- The six category sub-scores of `calculate_inclusivity_score`. -/
structure InclusivityBreakdown where
  gender_bias : ℕ
  age_bias : ℕ
  disability_bias : ℕ
  cultural_fit_bias : ℕ
  exclusionary_language : ℕ
  appearance_bias : ℕ
deriving Repr, DecidableEq

/-- The inclusivity result: rounded overall score, per-category breakdown,
ordinal interpretation. -/
structure InclusivityScore where
  overall_inclusivity_score : ℚ
  breakdown : InclusivityBreakdown
  interpretation : String
deriving Repr, DecidableEq

/-- Python source, `get_inclusivity_interpretation`. -/
def get_inclusivity_interpretation (score : ℚ) : String :=
  if 80 ≤ score then "Highly Inclusive"
  else if 60 ≤ score then "Moderately Inclusive"
  else if 40 ≤ score then "Needs Improvement"
  else "Low Inclusivity"

/-- The six capped category sub-scores of `calculate_inclusivity_score`,
with the explicit-marker multipliers. -/
def inclusivityBreakdownOf (keyword_results : KeywordAnalysis) : InclusivityBreakdown :=
  let masculine_matches := keyword_results.masculine_coded.matched
  let has_explicit_gender := masculine_matches.any (fun m =>
    hasSubLower "male" m || hasSubLower "men" m)
  let gender_multiplier := if has_explicit_gender then 15 else 10
  let gender_bias := min ((keyword_results.masculine_coded.count +
    keyword_results.feminine_coded.count) * gender_multiplier) 100
  let age_matches := keyword_results.age_biased.matched
  let has_explicit_age := age_matches.any (fun m => hasSubLower "under" m)
  let age_multiplier := if has_explicit_age then 20 else 15
  let age_bias := min (keyword_results.age_biased.count * age_multiplier) 100
  let disability_matches := keyword_results.disability_biased.matched
  let has_no_accommodation := disability_matches.any (fun m =>
    hasSubLower "without accommodation" m || hasSubLower "no accommodation" m)
  let disability_multiplier := if has_no_accommodation then 25 else 20
  let disability_bias :=
    min (keyword_results.disability_biased.count * disability_multiplier) 100
  let cultural_fit_bias := min (keyword_results.cultural_fit.count * 12) 100
  let exclusionary_matches := keyword_results.exclusionary_language.matched
  let has_explicit_exclusion := exclusionary_matches.any (fun m =>
    hasSubLower "only" m || hasSubLower "no" m)
  let exclusionary_multiplier := if has_explicit_exclusion then 20 else 15
  let exclusionary_language :=
    min (keyword_results.exclusionary_language.count * exclusionary_multiplier) 100
  let appearance_matches := keyword_results.appearance_biased.matched
  let has_explicit_appearance := appearance_matches.any (fun m => hasSubLower "no" m)
  let appearance_multiplier := if has_explicit_appearance then 18 else 12
  let appearance_bias :=
    min (keyword_results.appearance_biased.count * appearance_multiplier) 100
  ⟨gender_bias, age_bias, disability_bias, cultural_fit_bias,
   exclusionary_language, appearance_bias⟩

/-- The keyword-only overall inclusivity (100 minus the average of the six
sub-scores, floored at 0). -/
def overallBase (keyword_results : KeywordAnalysis) : ℚ :=
  let b := inclusivityBreakdownOf keyword_results
  let total_bias : ℕ := b.gender_bias + b.age_bias + b.disability_bias +
    b.cultural_fit_bias + b.exclusionary_language + b.appearance_bias
  max 0 (100 - (total_bias : ℚ) / 6)

/-- The overall inclusivity after the optional classifier deduction of
`top_score * 20` behind the non-neutral / 0.25-confidence guard. -/
def overallAdjusted (keyword_results : KeywordAnalysis)
    (classifier_results : Option ClassifierOut) : ℚ :=
  match classifier_results with
  | none => overallBase keyword_results
  | some cls =>
    if cls.labels ≠ [] ∧ cls.scores ≠ [] then
      if cls.labels.headD "" ≠ "neutral" ∧ 0.25 ≤ topScoreOf cls then
        max 0 (overallBase keyword_results - topScoreOf cls * 20)
      else overallBase keyword_results
    else overallBase keyword_results

/-- Python source, `calculate_inclusivity_score`: the overall value is
rounded to one decimal; the interpretation is computed on the unrounded
value, as in the source. -/
def calculate_inclusivity_score (keyword_results : KeywordAnalysis)
    (classifier_results : Option ClassifierOut) : InclusivityScore :=
  { overall_inclusivity_score := pyRoundTo (overallAdjusted keyword_results classifier_results) 1,
    breakdown := inclusivityBreakdownOf keyword_results,
    interpretation :=
      get_inclusivity_interpretation (overallAdjusted keyword_results classifier_results) }

/-- Python source, `_keyword_contribution` (every call site uses the default
cap 30). -/
def _keyword_contribution (keyword_results : KeywordAnalysis) (key : String)
    (weight : ℕ) : ℚ :=
  min (((getCategory keyword_results key).count * weight : ℕ) : ℚ) 30

/-- The `label_category_map` of `calculate_bias_breakdown`. -/
def label_category_map (label : String) : Option String :=
  match label with
  | "gender-bias" => some "gender_bias"
  | "age-bias" => some "age_bias"
  | "disability-bias" => some "disability_bias"
  | "culture-fit-bias" => some "cultural_fit_bias"
  | "exclusionary-language" => some "exclusionary_language"
  | "intl-bias" => some "international_bias"
  | _ => none

/-- The total the classifier loop of `calculate_bias_breakdown` adds to one
category: `score * 20` summed over the (label, signal) pairs that are
non-neutral, at least 0.1 strong, and mapped to that category.  The source
accumulates the same totals imperatively over the zipped lists. -/
def classifierContribution (classifier_results : Option ClassifierOut)
    (category : String) : ℚ :=
  match classifier_results with
  | none => 0
  | some cls =>
    if cls.labels ≠ [] ∧ cls.scores ≠ [] then
      let signal :=
        match cls.calibrated_scores with
        | some (c :: cs) => c :: cs
        | _ => cls.scores
      ((cls.labels.zip signal).filter (fun p =>
        p.1 ≠ "neutral" ∧ 0.1 ≤ p.2 ∧ label_category_map p.1 = some category)).foldl
        (fun acc p => acc + p.2 * 20) 0
    else 0

/-- The seven raw per-category contributions of `calculate_bias_breakdown`,
in the source dictionary's insertion order. -/
def rawContributions (keyword_results : KeywordAnalysis)
    (classifier_results : Option ClassifierOut) (intl_score : Option ℤ) :
    List (String × ℚ) := [
  ("gender_bias",
    _keyword_contribution keyword_results "masculine_coded" 10 +
    _keyword_contribution keyword_results "feminine_coded" 8 +
    classifierContribution classifier_results "gender_bias"),
  ("age_bias",
    _keyword_contribution keyword_results "age_biased" 12 +
    classifierContribution classifier_results "age_bias"),
  ("disability_bias",
    _keyword_contribution keyword_results "disability_biased" 14 +
    classifierContribution classifier_results "disability_bias"),
  ("cultural_fit_bias",
    _keyword_contribution keyword_results "cultural_fit" 6 +
    classifierContribution classifier_results "cultural_fit_bias"),
  ("exclusionary_language",
    _keyword_contribution keyword_results "exclusionary_language" 15 +
    classifierContribution classifier_results "exclusionary_language"),
  ("appearance_bias",
    _keyword_contribution keyword_results "appearance_biased" 12 +
    classifierContribution classifier_results "appearance_bias"),
  ("international_bias",
    (match intl_score with
     | some s => max ((s : ℚ) * 0.6) 0
     | none => 0) +
    classifierContribution classifier_results "international_bias")]

/-- The rounding-error reconciliation loop of `calculate_bias_breakdown`:
cyclically step through the categories (carried here in `keys_sorted`
order), shrink the current value when the integers sum over 100 and it is
above 1, grow it when they sum under, for at most 500 iterations (the
source's `guard`).  An empty list cannot occur on the call path (seven
fixed categories). -/
def reconcile : List (String × ℤ) → ℤ → ℕ → ℕ → List (String × ℤ)
  | vals, _, _, 0 => vals
  | vals, diff, idx, fuel + 1 =>
    if diff = 0 then vals
    else
      match vals.get? (idx % vals.length) with
      | none => vals
      | some (key, v) =>
        if 0 < diff ∧ 1 < v then
          reconcile (vals.set (idx % vals.length) (key, v - 1)) (diff - 1) (idx + 1) fuel
        else if diff < 0 then
          reconcile (vals.set (idx % vals.length) (key, v + 1)) (diff + 1) (idx + 1) fuel
        else reconcile vals diff (idx + 1) fuel

/-- The smoothing pass of `calculate_bias_breakdown`
(`value + smoothing_factor` with `smoothing_factor = 0.35`). -/
def smoothedContributions (contributions : List (String × ℚ)) :
    List (String × ℚ) :=
  contributions.map (fun p => (p.1, p.2 + 0.35))

/-- The normalization pass of `calculate_bias_breakdown`
(`value / total * 100` with the `or 1.0` guard on a zero total). -/
def percentagesOf (contributions : List (String × ℚ)) : List (String × ℚ) :=
  let adjusted := smoothedContributions contributions
  let total0 := (adjusted.map Prod.snd).sum
  let total := if total0 == 0 then 1 else total0
  adjusted.map (fun p => (p.1, p.2 / total * 100))

/-- The rounding pass of `calculate_bias_breakdown`
(`max(1, round(percentage))`). -/
def roundedOf (contributions : List (String × ℚ)) : List (String × ℤ) :=
  (percentagesOf contributions).map (fun p => (p.1, max 1 (pyRound p.2)))

/-- The tail of `calculate_bias_breakdown` after the contributions
dictionary is built: smooth by 0.35, normalize, round with a floor of 1,
then reconcile the integers to sum 100 stepping through `keys_sorted`. -/
def breakdownFrom (contributions : List (String × ℚ)) : List (String × ℤ) :=
  let rounded := roundedOf contributions
  let total_sum := (rounded.map Prod.snd).sum
  let keys_sorted := sortPairsDesc rounded
  reconcile keys_sorted (total_sum - 100) 0 500

/-- Python source, `calculate_bias_breakdown`: smooth every contribution by
0.35, normalize to percentages (`or 1.0` on a zero total), round with a
floor of 1, then reconcile the integers to sum 100.  The source mutates a
dictionary whose iteration order never matters to callers; the embedded
result carries the same key-value mapping, held in `keys_sorted` order. -/
def calculate_bias_breakdown (keyword_results : KeywordAnalysis)
    (classifier_results : Option ClassifierOut) (intl_score : Option ℤ) :
    List (String × ℤ) :=
  breakdownFrom (rawContributions keyword_results classifier_results intl_score)

/-- Python source, `count_visa_issues`. -/
def count_visa_issues (keyword_results : KeywordAnalysis) : ℕ :=
  (keyword_results.exclusionary_language.matched.filter (fun m =>
    hasSubLower "visa" m || hasSubLower "sponsorship" m ||
    hasSubLower "eligible to work" m)).length

/-- Python source, `count_language_bias`. -/
def count_language_bias (keyword_results : KeywordAnalysis) : ℕ :=
  (keyword_results.exclusionary_language.matched.filter (fun m =>
    hasSubLower "native" m || hasSubLower "english" m)).length

/-- One red flag: matched text, severity, icon, category, explanation,
suggestion. -/
structure RedFlag where
  text : String
  severity : String
  icon : String
  category : String
  explanation : String
  suggestion : String
deriving Repr, DecidableEq

/-- Append a flag unless its text was already flagged (`seen_flags`). -/
def addFlag (st : List RedFlag × List String)
    (m severity icon category explanation suggestion : String) :
    List RedFlag × List String :=
  if m ∈ st.2 then st
  else (st.1 ++ [⟨m, severity, icon, category, explanation, suggestion⟩], st.2 ++ [m])

/-- Lower-cased copy of a string. -/
def lowerStr (s : String) : String := String.mk (lowerOf s)

/-- The visa/immigration condition of `generate_red_flags`' exclusionary
branch. -/
def visaFlagCond (ml : String) : Bool :=
  hasSub "visa" ml || hasSub "sponsorship" ml || hasSub "eligible to work" ml ||
  hasSub "no international" ml || hasSub "citizens only" ml ||
  hasSub "no work-permit" ml || hasSub "no opt" ml || hasSub "no cpt" ml ||
  hasSub "not considering opt" ml || hasSub "not considering cpt" ml

/-- The geographic condition of `generate_red_flags`' exclusionary branch. -/
def geoFlagCond (ml : String) : Bool :=
  hasSub "local applicants only" ml || hasSub "no relocations" ml ||
  hasSub "must be local" ml || hasSub "must be in north america" ml ||
  hasSub "north american applicants only" ml

/-- One exclusionary-language match through `generate_red_flags`' first
loop: visa, language or geographic flags; any other exclusionary match
falls through the `elif` chain unflagged. -/
def exclusionaryFlagStep (st : List RedFlag × List String) (m : String) :
    List RedFlag × List String :=
  let ml := lowerStr m
  if visaFlagCond ml then
    addFlag st m "high" "❗" "Visa/Immigration Exclusion"
      (s!"The phrase '{m}' explicitly excludes international candidates who may need visa sponsorship or work authorization support. This requirement can be illegal in many jurisdictions and significantly reduces your talent pool by excluding qualified candidates from diverse backgrounds.")
      "Consider stating 'Visa sponsorship available for qualified candidates' or removing the restriction entirely if not legally required. Focus on work authorization rather than citizenship status."
  else if hasSub "native" ml || hasSub "english" ml then
    addFlag st m "high" "❗" "Language Discrimination"
      (if hasSub "native" ml then
        s!"The phrase '{m}' requires 'native' language skills, which discriminates against qualified candidates who learned the language as a second language. This excludes many talented international candidates and may violate equal opportunity laws by focusing on origin rather than ability."
      else
        s!"The phrase '{m}' contains restrictive English-only requirements that can exclude qualified candidates who are fluent but learned English as a second language. This unnecessarily limits your talent pool and may discriminate against international candidates and non-native speakers.")
      "Replace with 'fluent in [language]' or 'professional proficiency in [language]' to focus on communication ability rather than language origin. This opens your role to qualified candidates regardless of their native language."
  else if geoFlagCond ml then
    addFlag st m "high" "❗" "Geographic Exclusion"
      (s!"The phrase '{m}' imposes geographic restrictions that unnecessarily limit your candidate pool. This may exclude highly qualified candidates willing to relocate and can reduce diversity in your applicant pool.")
      "If location is truly required, specify why (e.g., 'Must work on-site in [location]'). Otherwise, consider remote work options or offering relocation assistance to attract the best candidates regardless of location."
  else st

/-- One masculine-coded match through `generate_red_flags`: always flagged,
high severity for explicit gender preferences. -/
def masculineFlagStep (st : List RedFlag × List String) (m : String) :
    List RedFlag × List String :=
  let explicitGender := hasSubLower "male" m || hasSubLower "men" m
  addFlag st m (if explicitGender then "high" else "medium")
    (if explicitGender then "❗" else "⚠️") "Gender Discrimination"
    (if explicitGender then
      s!"The phrase '{m}' explicitly states a gender preference, which is illegal in most jurisdictions and constitutes direct discrimination. This violates equal employment opportunity laws and can result in legal consequences."
    else
      s!"The phrase '{m}' uses masculine-coded language that research shows can discourage women and non-binary candidates from applying. Studies indicate that words like 'rockstar,' 'ninja,' 'aggressive,' and 'dominant' are perceived as more masculine and can create an unconscious bias in job postings.")
    "Remove all gender-specific language. For masculine-coded terms, use neutral alternatives that focus on skills and competencies (e.g., 'high-performing professional' instead of 'rockstar'). Focus on what candidates will do, not how they should be."

/-- One age-biased match through `generate_red_flags`: always flagged, high
severity for explicit age cutoffs. -/
def ageFlagStep (st : List RedFlag × List String) (m : String) :
    List RedFlag × List String :=
  let explicitAge := hasSubLower "under" m
  addFlag st m (if explicitAge then "high" else "medium")
    (if explicitAge then "❗" else "⚠️") "Age Discrimination"
    (if explicitAge then
      s!"The phrase '{m}' contains explicit age restrictions that are illegal in many countries (e.g., ADEA in the US protects workers 40+). This excludes experienced candidates and may violate employment law, potentially resulting in discrimination claims."
    else if hasSubLower "young" m || hasSubLower "recent graduate" m || hasSubLower "fresh out" m then
      s!"The phrase '{m}' uses age-coded language that may discourage older candidates from applying. While not explicitly illegal, this language can create age-based bias and excludes experienced professionals who may bring valuable skills and perspectives."
    else
      s!"The phrase '{m}' contains language that may be perceived as age-biased. This can discourage qualified candidates of certain age groups from applying and may reduce diversity in your applicant pool.")
    "Remove age restrictions and age-coded language. If you need specific experience levels, state years of experience or skill requirements instead (e.g., '2-5 years of experience' or 'early-career professional'). Focus on capabilities rather than age."

/-- One disability-biased match through `generate_red_flags`: always
flagged, high severity. -/
def disabilityFlagStep (st : List RedFlag × List String) (m : String) :
    List RedFlag × List String :=
  addFlag st m "high" "❗" "Disability Discrimination"
    (if hasSubLower "without accommodation" m || hasSubLower "no accommodation" m then
      s!"The phrase '{m}' explicitly refuses to provide reasonable accommodations, which violates the ADA (US) and similar laws worldwide. This excludes qualified candidates with disabilities and may be illegal, potentially resulting in discrimination lawsuits."
    else if hasSubLower "able-bodied" m then
      s!"The phrase '{m}' explicitly excludes candidates with disabilities, which violates the ADA (US) and similar laws worldwide. This is illegal discrimination and excludes qualified candidates who may be able to perform the job with or without reasonable accommodations."
    else if hasSubLower "must be able to lift" m || hasSubLower "must be able to stand" m || hasSubLower "physical requirements" m then
      s!"The phrase '{m}' specifies physical requirements that may unnecessarily exclude candidates with disabilities. Unless these requirements are essential job functions that cannot be performed with reasonable accommodations, this may violate disability discrimination laws."
    else
      s!"The phrase '{m}' contains language that may exclude candidates with disabilities. Unless the requirement is an essential job function, this may violate disability discrimination laws and unnecessarily limits your talent pool.")
    "Remove accommodation refusals and unnecessary physical requirements. If physical abilities are truly essential, specify them clearly and note that reasonable accommodations will be provided. Add 'We provide reasonable accommodations for qualified candidates with disabilities' to show inclusivity."

/-- One appearance-biased match through `generate_red_flags`: always
flagged, high severity. -/
def appearanceFlagStep (st : List RedFlag × List String) (m : String) :
    List RedFlag × List String :=
  addFlag st m "high" "❗" "Appearance Discrimination"
    (if hasSubLower "no visible" m || hasSubLower "no tattoos" m || hasSubLower "no piercings" m then
      s!"The phrase '{m}' restricts appearance based on tattoos, piercings, or other visible characteristics. These requirements can discriminate against cultural and religious practices, exclude qualified candidates, and are often unnecessary for job performance."
    else
      s!"The phrase '{m}' contains appearance-based requirements that may discriminate against candidates based on their physical appearance, cultural practices, or religious beliefs. These requirements are often unnecessary and can exclude qualified candidates.")
    "Remove appearance restrictions unless they're essential for safety or legal compliance (e.g., food service hygiene requirements). Focus on professional presentation and demeanor rather than specific appearance requirements. This helps ensure you're evaluating candidates based on their qualifications, not their appearance."

/-- One cultural-fit match through `generate_red_flags`: always flagged,
medium severity. -/
def culturalFlagStep (st : List RedFlag × List String) (m : String) :
    List RedFlag × List String :=
  addFlag st m "medium" "⚠️" "Cultural Fit Bias"
    (if hasSubLower "fit the culture" m || hasSubLower "fit our culture" m || hasSubLower "cultural fit" m then
      s!"The phrase '{m}' uses vague 'cultural fit' language that can be used to exclude candidates from different backgrounds, cultures, or demographics. This often leads to unconscious bias in hiring and reduces diversity in your organization."
    else if hasSubLower "work hard play hard" m || hasSubLower "work hard, play hard" m then
      s!"The phrase '{m}' suggests a work culture that may exclude candidates who cannot or prefer not to participate in after-work social activities. This can discriminate against candidates with family responsibilities, religious observances, or those who prefer work-life boundaries."
    else if hasSubLower "beer fridays" m || hasSubLower "after-work drinks" m then
      s!"The phrase '{m}' references alcohol-based social activities that may exclude candidates who don't drink for religious, health, or personal reasons. This can create an exclusionary culture and reduce diversity."
    else
      s!"The phrase '{m}' contains language that may create an exclusionary culture or suggest that only certain types of candidates will fit in. This can lead to unconscious bias and reduce diversity in your applicant pool.")
    "Be specific about what you mean. Instead of vague 'cultural fit' language, describe actual values and behaviors (e.g., 'collaborative team player,' 'values diversity and inclusion,' 'respects different perspectives'). Focus on professional qualities rather than social activities."

/-- The `(flags, seen_flags)` state after `generate_red_flags`' six category
loops, run in source order; feminine-coded matches have no loop in the
source. -/
def redFlagsState (keyword_results : KeywordAnalysis) : List RedFlag × List String :=
  let st : List RedFlag × List String := ([], [])
  let st := keyword_results.exclusionary_language.matched.foldl exclusionaryFlagStep st
  let st := keyword_results.masculine_coded.matched.foldl masculineFlagStep st
  let st := keyword_results.age_biased.matched.foldl ageFlagStep st
  let st := keyword_results.disability_biased.matched.foldl disabilityFlagStep st
  let st := keyword_results.appearance_biased.matched.foldl appearanceFlagStep st
  let st := keyword_results.cultural_fit.matched.foldl culturalFlagStep st
  st

/-- Python source, `generate_red_flags`: the flag list the six loops build. -/
def generate_red_flags (keyword_results : KeywordAnalysis) : List RedFlag :=
  (redFlagsState keyword_results).1

/-- The secondary counts dictionary of `analyze_full`'s result. -/
structure SimpleBreakdown where
  visa_requirements : ℕ
  language_bias : ℕ
  cultural_assumptions : ℕ
  gender_discrimination : ℕ
  age_discrimination : ℕ
  disability_discrimination : ℕ
  appearance_discrimination : ℕ
  other_exclusionary : ℕ
deriving Repr, DecidableEq

/-- The merged response object `analyze_full` returns. -/
structure AnalysisResult where
  bias_score : ℤ
  international_student_bias_score : ℤ
  inclusivity_score : InclusivityScore
  keyword_analysis : KeywordAnalysis
  classification : ClassifierOut
  sentence_insights : List SentenceInsight
  bias_breakdown : List (String × ℤ)
  red_flags : List RedFlag
  breakdown : SimpleBreakdown
  analysis_type : String
  nlp_used : Bool

/-- The classification `analyze_full` uses: the NLP path for
`use_nlp = True` (whose own except-clause already returns the keyword
fallback, so `analyze_full`'s `try` around it never fires in the
embedding), else the keyword-inferred dictionary (which carries no
calibrated scores). -/
def classifierResultsFor (P : EntailmentProvider) (text : String) (use_nlp : Bool)
    (keyword_results : KeywordAnalysis) : ClassifierOut :=
  if use_nlp then analyze_with_classifier P text
  else
    let (inferred_labels, inferred_scores) := inferredClassification keyword_results
    { labels := inferred_labels.take 6, scores := inferred_scores.take 6,
      calibrated_scores := none, error := none, fallback := some true,
      provider := none, sentence_insights := [] }

/-- Python source, `analyze_full`: keyword detection, then the
classification, then the scores, breakdown and red flags. -/
def analyze_full (P : EntailmentProvider) (text : String) (use_nlp : Bool) :
    AnalysisResult :=
  let keyword_results := detect_bias_keywords text
  let classifier_results := classifierResultsFor P text use_nlp keyword_results
  let intl_score := calculate_international_bias_score keyword_results (some text)
  { bias_score := calculate_bias_score keyword_results classifier_results,
    international_student_bias_score := intl_score,
    inclusivity_score := calculate_inclusivity_score keyword_results (some classifier_results),
    keyword_analysis := keyword_results,
    classification := classifier_results,
    sentence_insights := classifier_results.sentence_insights,
    bias_breakdown := calculate_bias_breakdown keyword_results (some classifier_results) (some intl_score),
    red_flags := generate_red_flags keyword_results,
    breakdown :=
      { visa_requirements := count_visa_issues keyword_results,
        language_bias := count_language_bias keyword_results,
        cultural_assumptions := keyword_results.cultural_fit.count,
        gender_discrimination := keyword_results.masculine_coded.count,
        age_discrimination := keyword_results.age_biased.count,
        disability_discrimination := keyword_results.disability_biased.count,
        appearance_discrimination := keyword_results.appearance_biased.count,
        other_exclusionary := keyword_results.masculine_coded.count +
          keyword_results.age_biased.count },
    analysis_type := "real",
    nlp_used := !(classifier_results.fallback.getD false) }

/-- A provider in the model-unavailable state: loading raises, and (were it
reached) every entailment call raises too. -/
def failingProvider : EntailmentProvider :=
  ⟨Except.error "Failed to load NLP classifier",
   fun _ _ => Except.error "NLP classification failed"⟩

/-! ### Helper lemmas -/

/-- A predicate preserved by every step of a fold holds of the fold. -/
theorem foldl_preserves {α β : Type} (p : β → Prop) (f : β → α → β)
    (hf : ∀ b a, p b → p (f b a)) : ∀ (l : List α) (b : β), p b → p (l.foldl f b)
  | [], _, hb => hb
  | a :: l, b, hb => foldl_preserves p f hf l (f b a) (hf b a hb)

/-- Monotone state components survive a fold. -/
theorem foldl_seen_mono {α : Type} (f : List RedFlag × List String → α → List RedFlag × List String)
    (hmono : ∀ (st : List RedFlag × List String) (m : α) (x : String), x ∈ st.2 → x ∈ (f st m).2) :
    ∀ (l : List α) (st : List RedFlag × List String) (x : String), x ∈ st.2 → x ∈ (l.foldl f st).2
  | [], _, _, hx => hx
  | a :: l, st, x, hx => foldl_seen_mono f hmono l (f st a) x (hmono st a x hx)

/-- An element of the fold's input ends up in the seen set when every step
records its own element and the seen set is monotone. -/
theorem foldl_seen_covers
    (f : List RedFlag × List String → String → List RedFlag × List String)
    (hmono : ∀ (st : List RedFlag × List String) (m x : String), x ∈ st.2 → x ∈ (f st m).2)
    (hself : ∀ (st : List RedFlag × List String) (m : String), m ∈ (f st m).2) :
    ∀ (l : List String) (st : List RedFlag × List String) (m : String),
      m ∈ l → m ∈ (l.foldl f st).2 := by
  intro l
  induction l with
  | nil => intro st m hm; cases hm
  | cons a l ih =>
    intro st m hm
    rcases List.mem_cons.1 hm with h | h
    · have := foldl_seen_mono f hmono l (f st a) a (hself st a)
      rwa [h]
    · exact ih (f st a) m h

/-- The flag list's texts are exactly the seen set, without duplicates. -/
def FlagInv (st : List RedFlag × List String) : Prop :=
  st.1.map RedFlag.text = st.2 ∧ st.2.Nodup

theorem addFlag_inv (st : List RedFlag × List String) (m a b c d e : String)
    (h : FlagInv st) : FlagInv (addFlag st m a b c d e) := by
  unfold addFlag
  split
  · exact h
  · next hm =>
    refine ⟨?_, ?_⟩
    · simp [h.1]
    · simp only [List.nodup_append, List.nodup_cons, List.nodup_nil]
      exact ⟨h.2, by simp, by intro x hx hx2; simp at hx2; subst hx2; exact hm hx⟩

theorem addFlag_mono (st : List RedFlag × List String) (m a b c d e x : String)
    (h : x ∈ st.2) : x ∈ (addFlag st m a b c d e).2 := by
  unfold addFlag
  split
  · exact h
  · exact List.mem_append_left _ h

theorem addFlag_self (st : List RedFlag × List String) (m a b c d e : String) :
    m ∈ (addFlag st m a b c d e).2 := by
  unfold addFlag
  split
  · assumption
  · exact List.mem_append_right _ (by simp)

theorem exclusionaryFlagStep_inv (st : List RedFlag × List String) (m : String)
    (h : FlagInv st) : FlagInv (exclusionaryFlagStep st m) := by
  simp only [exclusionaryFlagStep]
  split
  · exact addFlag_inv _ _ _ _ _ _ _ h
  · split
    · exact addFlag_inv _ _ _ _ _ _ _ h
    · split
      · exact addFlag_inv _ _ _ _ _ _ _ h
      · exact h

theorem exclusionaryFlagStep_mono (st : List RedFlag × List String) (m x : String)
    (h : x ∈ st.2) : x ∈ (exclusionaryFlagStep st m).2 := by
  simp only [exclusionaryFlagStep]
  split
  · exact addFlag_mono _ _ _ _ _ _ _ _ h
  · split
    · exact addFlag_mono _ _ _ _ _ _ _ _ h
    · split
      · exact addFlag_mono _ _ _ _ _ _ _ _ h
      · exact h

theorem masculineFlagStep_inv (st : List RedFlag × List String) (m : String)
    (h : FlagInv st) : FlagInv (masculineFlagStep st m) :=
  addFlag_inv _ _ _ _ _ _ _ h

theorem masculineFlagStep_mono (st : List RedFlag × List String) (m x : String)
    (h : x ∈ st.2) : x ∈ (masculineFlagStep st m).2 :=
  addFlag_mono _ _ _ _ _ _ _ _ h

theorem masculineFlagStep_self (st : List RedFlag × List String) (m : String) :
    m ∈ (masculineFlagStep st m).2 :=
  addFlag_self _ _ _ _ _ _ _

theorem ageFlagStep_inv (st : List RedFlag × List String) (m : String)
    (h : FlagInv st) : FlagInv (ageFlagStep st m) :=
  addFlag_inv _ _ _ _ _ _ _ h

theorem ageFlagStep_mono (st : List RedFlag × List String) (m x : String)
    (h : x ∈ st.2) : x ∈ (ageFlagStep st m).2 :=
  addFlag_mono _ _ _ _ _ _ _ _ h

theorem ageFlagStep_self (st : List RedFlag × List String) (m : String) :
    m ∈ (ageFlagStep st m).2 :=
  addFlag_self _ _ _ _ _ _ _

theorem disabilityFlagStep_inv (st : List RedFlag × List String) (m : String)
    (h : FlagInv st) : FlagInv (disabilityFlagStep st m) :=
  addFlag_inv _ _ _ _ _ _ _ h

theorem disabilityFlagStep_mono (st : List RedFlag × List String) (m x : String)
    (h : x ∈ st.2) : x ∈ (disabilityFlagStep st m).2 :=
  addFlag_mono _ _ _ _ _ _ _ _ h

theorem disabilityFlagStep_self (st : List RedFlag × List String) (m : String) :
    m ∈ (disabilityFlagStep st m).2 :=
  addFlag_self _ _ _ _ _ _ _

theorem appearanceFlagStep_inv (st : List RedFlag × List String) (m : String)
    (h : FlagInv st) : FlagInv (appearanceFlagStep st m) :=
  addFlag_inv _ _ _ _ _ _ _ h

theorem appearanceFlagStep_mono (st : List RedFlag × List String) (m x : String)
    (h : x ∈ st.2) : x ∈ (appearanceFlagStep st m).2 :=
  addFlag_mono _ _ _ _ _ _ _ _ h

theorem appearanceFlagStep_self (st : List RedFlag × List String) (m : String) :
    m ∈ (appearanceFlagStep st m).2 :=
  addFlag_self _ _ _ _ _ _ _

theorem culturalFlagStep_inv (st : List RedFlag × List String) (m : String)
    (h : FlagInv st) : FlagInv (culturalFlagStep st m) :=
  addFlag_inv _ _ _ _ _ _ _ h

theorem culturalFlagStep_mono (st : List RedFlag × List String) (m x : String)
    (h : x ∈ st.2) : x ∈ (culturalFlagStep st m).2 :=
  addFlag_mono _ _ _ _ _ _ _ _ h

theorem culturalFlagStep_self (st : List RedFlag × List String) (m : String) :
    m ∈ (culturalFlagStep st m).2 :=
  addFlag_self _ _ _ _ _ _ _

/-- The keyword analysis as the (category, slot) pairs the source's result
dictionary holds, in insertion order. -/
def kwToList (kw : KeywordAnalysis) : List (String × CategoryResult) :=
  [("masculine_coded", kw.masculine_coded), ("feminine_coded", kw.feminine_coded),
   ("age_biased", kw.age_biased), ("exclusionary_language", kw.exclusionary_language),
   ("cultural_fit", kw.cultural_fit), ("disability_biased", kw.disability_biased),
   ("appearance_biased", kw.appearance_biased)]

/-- All seven match lists are duplicate-free. -/
def allNodup (kw : KeywordAnalysis) : Prop :=
  kw.masculine_coded.matched.Nodup ∧ kw.feminine_coded.matched.Nodup ∧
  kw.age_biased.matched.Nodup ∧ kw.exclusionary_language.matched.Nodup ∧
  kw.cultural_fit.matched.Nodup ∧ kw.disability_biased.matched.Nodup ∧
  kw.appearance_biased.matched.Nodup

theorem addMatch_nodup (r : CategoryResult) (p : String) (h : r.matched.Nodup) :
    (addMatch r p).matched.Nodup := by
  unfold addMatch
  simp only
  split
  · exact h
  · next hp =>
    simp only [List.nodup_append, List.nodup_cons, List.nodup_nil]
    exact ⟨h, by simp, by intro x hx hx2; simp at hx2; subst hx2; exact hp hx⟩

theorem applyPhrase_nodup (kw : KeywordAnalysis) (p c : String)
    (h : allNodup kw) : allNodup (applyPhrase kw p c) := by
  obtain ⟨h1, h2, h3, h4, h5, h6, h7⟩ := h
  unfold applyPhrase
  split <;>
    exact ⟨by first | exact addMatch_nodup _ _ h1 | exact h1,
           by first | exact addMatch_nodup _ _ h2 | exact h2,
           by first | exact addMatch_nodup _ _ h3 | exact h3,
           by first | exact addMatch_nodup _ _ h4 | exact h4,
           by first | exact addMatch_nodup _ _ h5 | exact h5,
           by first | exact addMatch_nodup _ _ h6 | exact h6,
           by first | exact addMatch_nodup _ _ h7 | exact h7⟩

/-! ### C8 -/

/-- C8: for every input text, `detect_bias_keywords` returns all seven bias
categories (even at count 0), every match list is free of duplicates, and
empty or whitespace-only input yields the fully-populated zero result. -/
theorem detect_bias_keywords_invariants (text : String) :
    (kwToList (detect_bias_keywords text)).map Prod.fst = keywordCategories ∧
    allNodup (detect_bias_keywords text) ∧
    (isBlank text = true → detect_bias_keywords text = emptyKeywordAnalysis) := by
  refine ⟨rfl, ?_, ?_⟩
  · unfold detect_bias_keywords
    split
    · exact ⟨List.nodup_nil, List.nodup_nil, List.nodup_nil, List.nodup_nil,
        List.nodup_nil, List.nodup_nil, List.nodup_nil⟩
    · exact foldl_preserves allNodup _
        (fun kw e hkw => by
          split
          · exact applyPhrase_nodup kw e.phrase e.category hkw
          · exact hkw)
        BIAS_PHRASES emptyKeywordAnalysis
        ⟨List.nodup_nil, List.nodup_nil, List.nodup_nil, List.nodup_nil,
         List.nodup_nil, List.nodup_nil, List.nodup_nil⟩
  · intro h
    unfold detect_bias_keywords
    simp [h]

/-- C8 witness: the whitespace-only input takes the zero-result branch. -/
theorem detect_bias_keywords_invariants_witness :
    detect_bias_keywords "   " = emptyKeywordAnalysis :=
  (detect_bias_keywords_invariants "   ").2.2 (by decide)

/-! ### C3 -/

/-- The spec's international-bias acceptance text. -/
def usCitizensText : String := "Only U.S. citizens will be considered; no visa sponsorship."

/-- C3 counterexample: on the spec's own acceptance text the analysis
returns an `international_student_bias_score` of 30, so the claimed bound
of at least 50 fails (the only firing signals are the single keyword match
`no visa sponsorship` worth 30 and no raw-text heuristic trigger). -/
theorem intl_score_on_us_citizens_text_below_50 :
    ¬ (50 ≤ (analyze_full failingProvider usCitizensText false).international_student_bias_score) := by
  decide

/-- C3 amended: for the input text `"Only U.S. citizens will be considered;
no visa sponsorship."` the analysis returns an
`international_student_bias_score` of exactly 30 (in particular at least
30), for every provider and `use_nlp` flag. -/
theorem intl_score_on_us_citizens_text_eq_30 :
    ∀ (P : EntailmentProvider) (use_nlp : Bool),
      (analyze_full P usCitizensText use_nlp).international_student_bias_score = 30 := by
  intro P use_nlp
  show calculate_international_bias_score (detect_bias_keywords usCitizensText)
      (some usCitizensText) = 30
  decide

theorem redFlagsState_inv (kw : KeywordAnalysis) : FlagInv (redFlagsState kw) := by
  unfold redFlagsState
  exact foldl_preserves FlagInv culturalFlagStep culturalFlagStep_inv _ _
    (foldl_preserves FlagInv appearanceFlagStep appearanceFlagStep_inv _ _
      (foldl_preserves FlagInv disabilityFlagStep disabilityFlagStep_inv _ _
        (foldl_preserves FlagInv ageFlagStep ageFlagStep_inv _ _
          (foldl_preserves FlagInv masculineFlagStep masculineFlagStep_inv _ _
            (foldl_preserves FlagInv exclusionaryFlagStep exclusionaryFlagStep_inv _ _
              ⟨rfl, List.nodup_nil⟩)))))

theorem redFlagsState_covers (kw : KeywordAnalysis) :
    ∀ m, (m ∈ kw.masculine_coded.matched ∨ m ∈ kw.age_biased.matched ∨
          m ∈ kw.disability_biased.matched ∨ m ∈ kw.appearance_biased.matched ∨
          m ∈ kw.cultural_fit.matched) → m ∈ (redFlagsState kw).2 := by
  intro m hm
  unfold redFlagsState
  rcases hm with h | h | h | h | h
  · refine foldl_seen_mono _ culturalFlagStep_mono _ _ _ ?_
    refine foldl_seen_mono _ appearanceFlagStep_mono _ _ _ ?_
    refine foldl_seen_mono _ disabilityFlagStep_mono _ _ _ ?_
    refine foldl_seen_mono _ ageFlagStep_mono _ _ _ ?_
    exact foldl_seen_covers _ masculineFlagStep_mono masculineFlagStep_self _ _ _ h
  · refine foldl_seen_mono _ culturalFlagStep_mono _ _ _ ?_
    refine foldl_seen_mono _ appearanceFlagStep_mono _ _ _ ?_
    refine foldl_seen_mono _ disabilityFlagStep_mono _ _ _ ?_
    exact foldl_seen_covers _ ageFlagStep_mono ageFlagStep_self _ _ _ h
  · refine foldl_seen_mono _ culturalFlagStep_mono _ _ _ ?_
    refine foldl_seen_mono _ appearanceFlagStep_mono _ _ _ ?_
    exact foldl_seen_covers _ disabilityFlagStep_mono disabilityFlagStep_self _ _ _ h
  · refine foldl_seen_mono _ culturalFlagStep_mono _ _ _ ?_
    exact foldl_seen_covers _ appearanceFlagStep_mono appearanceFlagStep_self _ _ _ h
  · exact foldl_seen_covers _ culturalFlagStep_mono culturalFlagStep_self _ _ _ h

/-! ### C6 -/

/-- C6 counterexample: the input `"A nurturing workplace."` produces the
feminine-coded keyword match `nurturing` yet `generate_red_flags` returns no
flag at all, so not every keyword match across all categories yields a flag. -/
theorem generate_red_flags_misses_feminine_match :
    (detect_bias_keywords "A nurturing workplace.").feminine_coded.matched = ["nurturing"] ∧
    generate_red_flags (detect_bias_keywords "A nurturing workplace.") = [] := by
  constructor <;> decide

/-- C6 amended: `generate_red_flags` deduplicates by exact matched text
(never two flags for one phrase), and produces a flag for every
masculine-coded, age-biased, disability-biased, appearance-biased and
cultural-fit keyword match; exclusionary-language matches are flagged only
when they satisfy the visa/language/geographic rules of the `elif` chain,
and feminine-coded matches are never flagged. -/
theorem red_flags_dedup_and_coverage (kw : KeywordAnalysis) :
    ((generate_red_flags kw).map RedFlag.text).Nodup ∧
    (∀ m, (m ∈ kw.masculine_coded.matched ∨ m ∈ kw.age_biased.matched ∨
           m ∈ kw.disability_biased.matched ∨ m ∈ kw.appearance_biased.matched ∨
           m ∈ kw.cultural_fit.matched) →
       ∃ f ∈ generate_red_flags kw, f.text = m) := by
  have hinv := redFlagsState_inv kw
  constructor
  · show ((redFlagsState kw).1.map RedFlag.text).Nodup
    rw [hinv.1]
    exact hinv.2
  · intro m hm
    have hseen := redFlagsState_covers kw m hm
    rw [← hinv.1] at hseen
    obtain ⟨f, hf, hft⟩ := List.mem_map.1 hseen
    exact ⟨f, hf, hft⟩

/-! ### C7 -/

/-- C7: whenever the classification try-body fails on a non-blank text
(model unavailable, or any per-call inference failure), the substituted
keyword-inferred classification is deterministic: ordered insertion of
exclusionary-language, then gender-bias, then age-bias — each present
exactly when its keyword category count is positive — in front of the
neutral default at confidence 0.5, with the fallback marker set. -/
theorem fallback_classification_shape (P : EntailmentProvider) (text e : String)
    (herr : analyze_with_classifier_try P text = .error e)
    (hblank : isBlank text = false) :
    (analyze_with_classifier P text).labels =
      ((if 0 < (detect_bias_keywords text).age_biased.count then ["age-bias"] else []) ++
       (if 0 < (detect_bias_keywords text).masculine_coded.count ∨
           0 < (detect_bias_keywords text).feminine_coded.count then ["gender-bias"] else []) ++
       (if 0 < (detect_bias_keywords text).exclusionary_language.count then
          ["exclusionary-language"] else []) ++
       ["neutral"]) ∧
    (analyze_with_classifier P text).scores =
      ((if 0 < (detect_bias_keywords text).age_biased.count then [(0.7 : ℚ)] else []) ++
       (if 0 < (detect_bias_keywords text).masculine_coded.count ∨
           0 < (detect_bias_keywords text).feminine_coded.count then [(0.7 : ℚ)] else []) ++
       (if 0 < (detect_bias_keywords text).exclusionary_language.count then
          [(0.8 : ℚ)] else []) ++
       [(0.5 : ℚ)]) ∧
    (analyze_with_classifier P text).fallback = some true := by
  have hfb : analyze_with_classifier P text = analyze_with_classifier_fallback text e := by
    unfold analyze_with_classifier
    rw [hblank, herr]
    simp
  rw [hfb]
  unfold analyze_with_classifier_fallback
  by_cases h1 : 0 < (detect_bias_keywords text).exclusionary_language.count <;>
  by_cases h2 : 0 < (detect_bias_keywords text).masculine_coded.count ∨
      0 < (detect_bias_keywords text).feminine_coded.count <;>
  by_cases h3 : 0 < (detect_bias_keywords text).age_biased.count <;>
  simp [inferredClassification, h1, h2, h3]

/-- C7 witness: an always-failing provider on a text with age-biased and
masculine-coded keywords yields the inferred labels in the stated order. -/
theorem fallback_classification_shape_witness :
    (analyze_with_classifier failingProvider "A rockstar digital native.").labels
      = ["age-bias", "gender-bias", "neutral"] ∧
    (analyze_with_classifier failingProvider "A rockstar digital native.").scores
      = [(0.7 : ℚ), (0.7 : ℚ), (0.5 : ℚ)] := by
  have h := fallback_classification_shape failingProvider "A rockstar digital native."
    "Failed to load NLP classifier" rfl (by decide)
  refine ⟨?_, ?_⟩
  · rw [h.1]; decide
  · rw [h.2.1]; decide

/-! ### C2 -/

/-- C2 counterexample: for the empty input text, even with an entailment
provider that raises on every call, `analyze_full(text, use_nlp=True)`
returns the fixed neutral early-return classification, which carries no
`fallback` key at all — so `classification.fallback == true` fails for this
text and the claim's universal quantification over texts is false. -/
theorem analyze_full_empty_text_no_fallback_marker :
    (analyze_full failingProvider "" true).classification.fallback ≠ some true ∧
    (analyze_full failingProvider "" true).classification.fallback = none := by
  constructor <;> decide

/-- C2 amended: `analyze_full` is a total function (it never raises: every
failure path is caught and substituted), and for every text that is not
empty or whitespace-only, when the entailment provider raises on every
call, `analyze_full(text, use_nlp=True)` returns a result whose
classification carries `fallback == true`; for blank text the defined
neutral zero-result classification is returned without a fallback marker. -/
theorem analyze_full_fallback_marker (P : EntailmentProvider) (text : String)
    (hfail : ∀ premise hyps, ∃ err, P.entailment_probs premise hyps = .error err)
    (hblank : isBlank text = false) :
    (analyze_full P text true).classification.fallback = some true := by
  have htry : ∃ err, analyze_with_classifier_try P text = .error err := by
    unfold analyze_with_classifier_try
    cases hl : P.load with
    | error err => exact ⟨err, by simp [hl, Bind.bind, Except.bind]⟩
    | ok nm =>
      obtain ⟨err, herr⟩ := hfail (textForAnalysis text) (candidate_labels.map hypotheses)
      refine ⟨err, ?_⟩
      simp only [hl, Bind.bind, Except.bind]
      rw [herr]
  obtain ⟨err, herr⟩ := htry
  show (analyze_with_classifier P text).fallback = some true
  unfold analyze_with_classifier
  rw [hblank, herr]
  simp [analyze_with_classifier_fallback]

/-- C2 witness: the failing provider on a concrete non-blank text. -/
theorem analyze_full_fallback_marker_witness :
    (analyze_full failingProvider "A rockstar engineer." true).classification.fallback
      = some true :=
  analyze_full_fallback_marker failingProvider "A rockstar engineer."
    (fun _ _ => ⟨"NLP classification failed", rfl⟩) (by decide)

/-! ### C5 (counterexample) and C4 (counterexample) -/

/-- A text whose keyword analysis has both a masculine-coded and an
exclusionary-language match. -/
def mixedText : String := "A rockstar who needs no visa sponsorship."

/-- C5 counterexample: on the keyword-inferred path (`use_nlp=False`, and
identically on classifier failure) a text with both gender and exclusionary
keyword hits yields scores `[0.7, 0.8, 0.5]` — the labels list is not
ordered descending by the parallel scores list. -/
theorem fallback_scores_not_descending :
    (analyze_full failingProvider mixedText false).classification.scores
      = [(0.7 : ℚ), (0.8 : ℚ), (0.5 : ℚ)] ∧
    ¬ ((analyze_full failingProvider mixedText false).classification.scores.Pairwise
        (fun a b => b ≤ a)) := by
  constructor <;> decide

/-- Two long sentences with no international trigger substrings. -/
def twoSentenceText : String :=
  "Applicants must handle frequent evening shifts. Candidates should expect demanding weekly schedules."

/-- A deterministic provider that scores the second sentence far above the
first on the exclusionary-language hypothesis, both over the 0.4 bar. -/
def stagedProvider : EntailmentProvider :=
  ⟨Except.ok "hf",
   fun premise _ =>
     if premise = "Applicants must handle frequent evening shifts." then
       Except.ok [0, 0, 0, 0, 0.45, 0, 0]
     else if premise = "Candidates should expect demanding weekly schedules." then
       Except.ok [0, 0, 0, 0, 0.9, 0, 0]
     else Except.ok [0, 0, 0, 0, 0, 0, 1]⟩

/-- C4 counterexample: both sentences are high-confidence findings (0.45 and
0.9, both at or above the 0.4 threshold), and the insights list keeps them
in document order `[0.45, 0.9]` — it is not sorted by confidence
descending. -/
theorem sentence_insights_not_sorted :
    ((analyze_with_classifier stagedProvider twoSentenceText).sentence_insights.map
        SentenceInsight.score) = [(9/20 : ℚ), (9/10 : ℚ)] ∧
    ¬ (((analyze_with_classifier stagedProvider twoSentenceText).sentence_insights.map
        SentenceInsight.score).Pairwise (fun a b => b ≤ a)) := by
  constructor <;> decide

/-! ### Rounding lemmas -/

theorem floor_le_pyRound (q : ℚ) : ⌊q⌋ ≤ pyRound q := by
  unfold pyRound
  split_ifs <;> omega

theorem pyRound_le_floor_add_one (q : ℚ) : pyRound q ≤ ⌊q⌋ + 1 := by
  unfold pyRound
  split_ifs <;> omega

theorem pyRound_le (q : ℚ) : (pyRound q : ℚ) ≤ q + 1/2 := by
  have hf := Int.floor_le q
  unfold pyRound
  split_ifs with h1 h2 h3 <;> push_cast <;>
    first | linarith | linarith [le_of_not_lt h1]

theorem pyRound_ge (q : ℚ) : q - 1/2 ≤ (pyRound q : ℚ) := by
  have hf := Int.lt_floor_add_one q
  unfold pyRound
  split_ifs with h1 h2 h3 <;> push_cast <;>
    first | linarith | linarith [le_of_not_lt h2]

theorem pyRound_mono {x y : ℚ} (h : x ≤ y) : pyRound x ≤ pyRound y := by
  rcases lt_or_le ⌊x⌋ ⌊y⌋ with hf | hf
  · have h1 := pyRound_le_floor_add_one x
    have h2 := floor_le_pyRound y
    omega
  · have hfe : ⌊x⌋ = ⌊y⌋ := le_antisymm (Int.floor_le_floor h) hf
    unfold pyRound
    rw [hfe]
    split_ifs <;> first | omega | (exfalso; linarith)

theorem pyRound_intCast (n : ℤ) : pyRound (n : ℚ) = n := by
  unfold pyRound
  rw [Int.floor_intCast]
  norm_num

theorem pyRound_eq_add_half {q : ℚ} (h : (pyRound q : ℚ) = q + 1/2) :
    q - ⌊q⌋ = 1/2 ∧ ¬(⌊q⌋ % 2 = 0) := by
  have hfl := Int.floor_le q
  unfold pyRound at h
  split_ifs at h with h1 h2 h3
  · exfalso; linarith
  · exfalso; push_cast at h; linarith
  · exfalso; linarith
  · exact ⟨by linarith [not_lt.1 h1, not_lt.1 h2], h3⟩

theorem pyRound_eq_sub_half {q : ℚ} (h : (pyRound q : ℚ) = q - 1/2) :
    q - ⌊q⌋ = 1/2 ∧ ⌊q⌋ % 2 = 0 := by
  have hfl := Int.lt_floor_add_one q
  unfold pyRound at h
  split_ifs at h with h1 h2 h3
  · exfalso; linarith
  · exfalso; push_cast at h; linarith
  · exact ⟨by linarith [not_lt.1 h1, not_lt.1 h2], h3⟩
  · exfalso; push_cast at h; linarith

/-- Banker's rounding cannot widen a gap of 200 (the parity of the two
floors saves the boundary case where both values sit on a half). -/
theorem pyRound_sub_le {x y : ℚ} (h : x - y ≤ 200) :
    pyRound x - pyRound y ≤ 200 := by
  by_contra hc
  push_neg at hc
  have h1 := pyRound_le x
  have h2 := pyRound_ge y
  have h201 : (201 : ℤ) ≤ pyRound x - pyRound y := hc
  have hle : ((pyRound x - pyRound y : ℤ) : ℚ) ≤ 201 := by push_cast; linarith
  have heq : pyRound x - pyRound y = 201 := by
    have : (pyRound x - pyRound y : ℤ) ≤ 201 := by exact_mod_cast hle
    omega
  have heqq : ((pyRound x : ℤ) : ℚ) - ((pyRound y : ℤ) : ℚ) = 201 := by
    have : ((pyRound x - pyRound y : ℤ) : ℚ) = 201 := by exact_mod_cast heq
    push_cast at this
    linarith
  have hx : (pyRound x : ℚ) = x + 1/2 := by linarith
  have hy : (pyRound y : ℚ) = y - 1/2 := by linarith
  obtain ⟨hfx, hox⟩ := pyRound_eq_add_half hx
  obtain ⟨hfy, hey⟩ := pyRound_eq_sub_half hy
  have hxy : x - y = 200 := by linarith
  have hff : (⌊x⌋ : ℚ) - (⌊y⌋ : ℚ) = 200 := by linarith
  have hffz : ⌊x⌋ - ⌊y⌋ = 200 := by exact_mod_cast hff
  omega

theorem pyRoundTo_one_mono {x y : ℚ} (h : x ≤ y) : pyRoundTo x 1 ≤ pyRoundTo y 1 := by
  unfold pyRoundTo
  have hm : pyRound (x * 10 ^ 1) ≤ pyRound (y * 10 ^ 1) :=
    pyRound_mono (by nlinarith)
  have hm2 : ((pyRound (x * 10 ^ 1) : ℤ) : ℚ) ≤ ((pyRound (y * 10 ^ 1) : ℤ) : ℚ) := by
    exact_mod_cast hm
  have hp : (0 : ℚ) ≤ 10 ^ 1 := by norm_num
  exact div_le_div_of_nonneg_right hm2 hp

theorem pyRoundTo_one_sub_le {x y : ℚ} (h : x - y ≤ 20) :
    pyRoundTo x 1 - pyRoundTo y 1 ≤ 20 := by
  unfold pyRoundTo
  have hs : pyRound (x * 10 ^ 1) - pyRound (y * 10 ^ 1) ≤ 200 :=
    pyRound_sub_le (by nlinarith)
  have hs2 : ((pyRound (x * 10 ^ 1) : ℤ) : ℚ) - ((pyRound (y * 10 ^ 1) : ℤ) : ℚ) ≤ 200 := by
    have : ((pyRound (x * 10 ^ 1) - pyRound (y * 10 ^ 1) : ℤ) : ℚ) ≤ 200 := by
      exact_mod_cast hs
    push_cast at this
    linarith
  have : (pyRound (x * 10 ^ 1) : ℚ) / 10 ^ 1 - (pyRound (y * 10 ^ 1) : ℚ) / 10 ^ 1 =
      ((pyRound (x * 10 ^ 1) : ℚ) - (pyRound (y * 10 ^ 1) : ℚ)) / 10 ^ 1 := by ring
  rw [this]
  rw [div_le_iff₀ (by norm_num : (0:ℚ) < 10 ^ 1)]
  linarith

/-! ### Range lemmas for the scoring functions -/

/-- A step-wise growing fold never shrinks below its start. -/
theorem foldl_monotone_of_mem {α β : Type} [Preorder β] (f : β → α → β) :
    ∀ (l : List α), (∀ (b : β) (a : α), a ∈ l → b ≤ f b a) → ∀ b : β, b ≤ l.foldl f b
  | [], _, b => le_refl b
  | a :: l, hf, b =>
    le_trans (hf b a (by simp))
      (foldl_monotone_of_mem f l (fun b x hx => hf b x (by simp [hx])) (f b a))

theorem label_weights_pos (l : String) : 0 < label_weights l := by
  unfold label_weights
  split <;> norm_num

theorem pyInt_nonneg {q : ℚ} (h : 0 ≤ q) : 0 ≤ pyInt q := by
  unfold pyInt
  rw [if_pos h]
  exact Int.floor_nonneg.2 h

theorem min_cap_nonneg (n : ℕ) (w : ℤ) (hw : 0 ≤ w) : (0 : ℤ) ≤ min ((n : ℤ) * w) 30 :=
  le_min (by positivity) (by norm_num)

/-- The overall bias score always lies in [0, 100]. -/
theorem keywordBiasBase_nonneg (kw : KeywordAnalysis) : 0 ≤ keywordBiasBase kw := by
  unfold keywordBiasBase
  have h1 := min_cap_nonneg kw.exclusionary_language.count 15 (by norm_num)
  have h2 := min_cap_nonneg kw.masculine_coded.count 10 (by norm_num)
  have h3 := min_cap_nonneg kw.feminine_coded.count 8 (by norm_num)
  have h4 := min_cap_nonneg kw.age_biased.count 12 (by norm_num)
  have h5 := min_cap_nonneg kw.cultural_fit.count 6 (by norm_num)
  have h6 := min_cap_nonneg kw.disability_biased.count 14 (by norm_num)
  have h7 := min_cap_nonneg kw.appearance_biased.count 12 (by norm_num)
  omega

theorem classifierBiasAdd_nonneg (cls : ClassifierOut) : 0 ≤ classifierBiasAdd cls := by
  unfold classifierBiasAdd
  split_ifs with h1 h2 h3
  · have hw := label_weights_pos (cls.labels.headD "")
    have ht : (0 : ℚ) ≤ topScoreOf cls := le_trans (by norm_num) h3
    exact pyInt_nonneg (mul_nonneg ht (by exact_mod_cast le_of_lt hw))
  · exact le_refl 0
  · exact le_refl 0
  · exact le_refl 0

theorem calculate_bias_score_range (kw : KeywordAnalysis) (cls : ClassifierOut) :
    0 ≤ calculate_bias_score kw cls ∧ calculate_bias_score kw cls ≤ 100 := by
  unfold calculate_bias_score
  exact ⟨le_min (add_nonneg (keywordBiasBase_nonneg kw) (classifierBiasAdd_nonneg cls))
    (by norm_num), min_le_right _ _⟩

/-- The international bias score always lies in [0, 100]. -/
theorem calculate_international_bias_score_range (kw : KeywordAnalysis)
    (src : Option String) :
    0 ≤ calculate_international_bias_score kw src ∧
    calculate_international_bias_score kw src ≤ 100 := by
  unfold calculate_international_bias_score
  refine ⟨le_min ?_ (by norm_num), min_le_right _ _⟩
  have hbase : (0 : ℤ) ≤
      ((kw.exclusionary_language.matched.filter (fun m =>
        hasSubLower "visa" m || hasSubLower "sponsorship" m ||
        hasSubLower "eligible to work" m)).length : ℤ) * 30 +
      ((kw.exclusionary_language.matched.filter (fun m =>
        hasSubLower "native" m || hasSubLower "english" m)).length : ℤ) * 20 +
      ((kw.exclusionary_language.matched.filter (fun m =>
        hasSubLower "opt" m || hasSubLower "cpt" m)).length : ℤ) * 25 +
      (kw.cultural_fit.count : ℤ) * 12 + (kw.age_biased.count : ℤ) * 10 := by
    positivity
  split
  · exact hbase
  · split
    · exact hbase
    · refine le_trans hbase (foldl_monotone_of_mem _ _ ?_ _)
      intro b a ha
      have haw : 0 ≤ a.2 := by
        have : ∀ p ∈ intl_score_heuristics, 0 ≤ p.2 := by decide
        exact this a ha
      split_ifs <;> omega

theorem overallBase_range (kw : KeywordAnalysis) :
    0 ≤ overallBase kw ∧ overallBase kw ≤ 100 := by
  unfold overallBase
  constructor
  · exact le_max_left 0 _
  · refine max_le (by norm_num) ?_
    have h2 : (0 : ℚ) ≤ (((inclusivityBreakdownOf kw).gender_bias +
        (inclusivityBreakdownOf kw).age_bias + (inclusivityBreakdownOf kw).disability_bias +
        (inclusivityBreakdownOf kw).cultural_fit_bias +
        (inclusivityBreakdownOf kw).exclusionary_language +
        (inclusivityBreakdownOf kw).appearance_bias : ℕ) : ℚ) / 6 := by positivity
    linarith

theorem overallAdjusted_le_base (kw : KeywordAnalysis) (cls : Option ClassifierOut) :
    overallAdjusted kw cls ≤ overallBase kw := by
  unfold overallAdjusted
  split
  · exact le_refl _
  · split_ifs with h1 h2
    · refine max_le (overallBase_range kw).1 ?_
      have ht : (0 : ℚ) ≤ topScoreOf _ := le_trans (by norm_num) h2.2
      nlinarith
    · exact le_refl _
    · exact le_refl _

theorem overallAdjusted_range (kw : KeywordAnalysis) (cls : Option ClassifierOut) :
    0 ≤ overallAdjusted kw cls ∧ overallAdjusted kw cls ≤ 100 := by
  refine ⟨?_, le_trans (overallAdjusted_le_base kw cls) (overallBase_range kw).2⟩
  unfold overallAdjusted
  split
  · exact (overallBase_range kw).1
  · split_ifs
    · exact le_max_left 0 _
    · exact (overallBase_range kw).1
    · exact (overallBase_range kw).1

theorem inclusivity_overall_range (kw : KeywordAnalysis) (cls : Option ClassifierOut) :
    0 ≤ (calculate_inclusivity_score kw cls).overall_inclusivity_score ∧
    (calculate_inclusivity_score kw cls).overall_inclusivity_score ≤ 100 := by
  have hr := overallAdjusted_range kw cls
  have h0 : pyRoundTo (0 : ℚ) 1 = 0 := by decide
  have h100 : pyRoundTo (100 : ℚ) 1 = 100 := by decide
  constructor
  · have := pyRoundTo_one_mono hr.1
    rw [h0] at this
    exact this
  · have := pyRoundTo_one_mono hr.2
    rw [h100] at this
    exact this

/-! ### C9 -/

/-- C9: for every provider, text and `use_nlp` flag, the returned
`bias_score` and `international_student_bias_score` are integers in
[0, 100], and the overall inclusivity score lies in [0, 100]. -/
theorem analyze_full_scores_in_range (P : EntailmentProvider) (text : String)
    (use_nlp : Bool) :
    0 ≤ (analyze_full P text use_nlp).bias_score ∧
    (analyze_full P text use_nlp).bias_score ≤ 100 ∧
    0 ≤ (analyze_full P text use_nlp).international_student_bias_score ∧
    (analyze_full P text use_nlp).international_student_bias_score ≤ 100 ∧
    0 ≤ (analyze_full P text use_nlp).inclusivity_score.overall_inclusivity_score ∧
    (analyze_full P text use_nlp).inclusivity_score.overall_inclusivity_score ≤ 100 := by
  refine ⟨?_, ?_, ?_, ?_, ?_, ?_⟩
  · exact (calculate_bias_score_range (detect_bias_keywords text)
      (classifierResultsFor P text use_nlp (detect_bias_keywords text))).1
  · exact (calculate_bias_score_range (detect_bias_keywords text)
      (classifierResultsFor P text use_nlp (detect_bias_keywords text))).2
  · exact (calculate_international_bias_score_range (detect_bias_keywords text)
      (some text)).1
  · exact (calculate_international_bias_score_range (detect_bias_keywords text)
      (some text)).2
  · exact (inclusivity_overall_range (detect_bias_keywords text)
      (some (classifierResultsFor P text use_nlp (detect_bias_keywords text)))).1
  · exact (inclusivity_overall_range (detect_bias_keywords text)
      (some (classifierResultsFor P text use_nlp (detect_bias_keywords text)))).2

/-! ### C10 -/

theorem topScoreOf_bounds (cls : ClassifierOut)
    (hs : ∀ s ∈ cls.scores, 0 ≤ s ∧ s ≤ 1)
    (hc : ∀ l, cls.calibrated_scores = some l → ∀ s ∈ l, 0 ≤ s ∧ s ≤ 1) :
    0 ≤ topScoreOf cls ∧ topScoreOf cls ≤ 1 := by
  unfold topScoreOf
  split
  · next c rest heq => exact hc (c :: rest) heq c (by simp)
  · cases hsc : cls.scores with
    | nil => simp only [hsc, List.headD_nil]; norm_num
    | cons a l =>
      simp only [hsc, List.headD_cons]
      exact hs a (by simp [hsc])

/-- C10: the overall inclusivity score computed with a classifier result
(whose scores honor the [0,1] data-model range) is never greater than the
score computed from the keyword analysis alone, and the classifier-induced
reduction is at most 20 points. -/
theorem classifier_reduces_inclusivity_at_most_20 (kw : KeywordAnalysis)
    (cls : ClassifierOut)
    (hs : ∀ s ∈ cls.scores, 0 ≤ s ∧ s ≤ 1)
    (hc : ∀ l, cls.calibrated_scores = some l → ∀ s ∈ l, 0 ≤ s ∧ s ≤ 1) :
    (calculate_inclusivity_score kw (some cls)).overall_inclusivity_score ≤
      (calculate_inclusivity_score kw none).overall_inclusivity_score ∧
    (calculate_inclusivity_score kw none).overall_inclusivity_score -
      (calculate_inclusivity_score kw (some cls)).overall_inclusivity_score ≤ 20 := by
  have hbound := topScoreOf_bounds cls hs hc
  have hnone : overallAdjusted kw none = overallBase kw := rfl
  constructor
  · exact pyRoundTo_one_mono (by rw [hnone] at *; exact overallAdjusted_le_base kw (some cls))
  · show pyRoundTo (overallAdjusted kw none) 1 - pyRoundTo (overallAdjusted kw (some cls)) 1 ≤ 20
    rw [hnone]
    apply pyRoundTo_one_sub_le
    simp only [overallAdjusted]
    split_ifs with h1 h2
    · have hmax : overallBase kw - topScoreOf cls * 20 ≤
          max 0 (overallBase kw - topScoreOf cls * 20) := le_max_right _ _
      nlinarith [hbound.1, hbound.2]
    · linarith
    · linarith

/-- A concrete classifier result for the C10 witness. -/
def demoClassifierOut : ClassifierOut :=
  { labels := ["intl-bias", "neutral"], scores := [0.9, 0.1],
    calibrated_scores := none, error := none, fallback := none,
    provider := some "hf", sentence_insights := [] }

/-- C10 witness: a non-neutral 0.9-confidence classifier result against the
empty keyword analysis. -/
theorem classifier_reduces_inclusivity_at_most_20_witness :
    (calculate_inclusivity_score emptyKeywordAnalysis (some demoClassifierOut)).overall_inclusivity_score ≤
      (calculate_inclusivity_score emptyKeywordAnalysis none).overall_inclusivity_score ∧
    (calculate_inclusivity_score emptyKeywordAnalysis none).overall_inclusivity_score -
      (calculate_inclusivity_score emptyKeywordAnalysis (some demoClassifierOut)).overall_inclusivity_score ≤ 20 :=
  classifier_reduces_inclusivity_at_most_20 emptyKeywordAnalysis demoClassifierOut
    (by decide) (fun l h => nomatch h)

/-! ### Sorting lemmas -/

theorem mem_insertPairDesc {α β : Type} [LinearOrder β] (x y : α × β)
    (l : List (α × β)) : y ∈ insertPairDesc x l ↔ y = x ∨ y ∈ l := by
  induction l with
  | nil => simp [insertPairDesc]
  | cons z l ih =>
    unfold insertPairDesc
    split_ifs with h
    · simp [List.mem_cons]
    · simp only [List.mem_cons, ih]
      tauto

theorem pairwise_insertPairDesc {α β : Type} [LinearOrder β] (x : α × β)
    (l : List (α × β)) (h : l.Pairwise (fun a b => b.2 ≤ a.2)) :
    (insertPairDesc x l).Pairwise (fun a b => b.2 ≤ a.2) := by
  induction l with
  | nil => simp [insertPairDesc]
  | cons z l ih =>
    rw [List.pairwise_cons] at h
    obtain ⟨hz, hl⟩ := h
    unfold insertPairDesc
    split_ifs with hlt
    · rw [List.pairwise_cons]
      refine ⟨?_, List.pairwise_cons.2 ⟨hz, hl⟩⟩
      intro p hp
      rcases List.mem_cons.1 hp with rfl | hp
      · exact le_of_lt hlt
      · exact le_trans (hz p hp) (le_of_lt hlt)
    · rw [List.pairwise_cons]
      refine ⟨?_, ih hl⟩
      intro p hp
      rcases (mem_insertPairDesc x p l).1 hp with rfl | hp
      · exact le_of_not_lt hlt
      · exact hz p hp

theorem sortPairsDesc_sorted {α β : Type} [LinearOrder β] (l : List (α × β)) :
    (sortPairsDesc l).Pairwise (fun a b => b.2 ≤ a.2) := by
  unfold sortPairsDesc
  exact foldl_preserves (fun s => s.Pairwise (fun a b => b.2 ≤ a.2))
    (fun acc x => insertPairDesc x acc)
    (fun acc x hacc => pairwise_insertPairDesc x acc hacc) l [] (by simp)

theorem insertPairDesc_perm {α β : Type} [LinearOrder β] (x : α × β)
    (l : List (α × β)) : List.Perm (insertPairDesc x l) (x :: l) := by
  induction l with
  | nil => simp [insertPairDesc]
  | cons z l ih =>
    unfold insertPairDesc
    split_ifs with h
    · exact List.Perm.refl _
    · exact (ih.cons z).trans (List.Perm.swap x z l)

theorem sortPairsDesc_perm_aux {α β : Type} [LinearOrder β] :
    ∀ (l acc : List (α × β)),
      List.Perm (l.foldl (fun acc x => insertPairDesc x acc) acc) (acc ++ l)
  | [], acc => by simp
  | x :: l, acc => by
    have h1 := sortPairsDesc_perm_aux l (insertPairDesc x acc)
    refine h1.trans ?_
    have h2 : List.Perm (insertPairDesc x acc ++ l) ((x :: acc) ++ l) :=
      (insertPairDesc_perm x acc).append_right l
    refine h2.trans ?_
    have h3 : (x :: acc) ++ l = x :: (acc ++ l) := rfl
    rw [h3]
    exact List.perm_middle.symm

theorem sortPairsDesc_perm {α β : Type} [LinearOrder β] (l : List (α × β)) :
    List.Perm (sortPairsDesc l) l := by
  have h := sortPairsDesc_perm_aux l ([] : List (α × β))
  simpa using h

/-! ### Dissecting the classification try-body -/

theorem except_bind_ok {A B : Type} {e : Except String A} {f : A → Except String B}
    {b : B} (h : (e >>= f) = .ok b) : ∃ a, e = .ok a ∧ f a = .ok b := by
  cases e with
  | error err => simp [Bind.bind, Except.bind] at h
  | ok a => exact ⟨a, rfl, by simpa [Bind.bind, Except.bind] using h⟩

theorem intl_signal_nonneg (text : String) : 0 ≤ detect_international_bias_signal text := by
  unfold detect_international_bias_signal
  refine le_min (by norm_num) ?_
  refine foldl_monotone_of_mem _ _ ?_ 0
  intro b a ha
  have haw : (0 : ℚ) ≤ a.2 := by
    have hall : ∀ p ∈ INTERNATIONAL_HEURISTICS, (0 : ℚ) ≤ p.2 := by decide
    exact hall a ha
  split_ifs <;> linarith

/-- Inversion of a successful run of the try-body: the load and the
document-level entailment call succeeded, the international slot existed,
the sentence extraction succeeded, and the result is the sorted, boosted,
calibrated record. -/
theorem analyze_with_classifier_try_ok (P : EntailmentProvider) (text : String)
    (r : ClassifierOut) (h : analyze_with_classifier_try P text = .ok r) :
    ∃ nm probs0 v ins,
      P.load = Except.ok nm ∧
      P.entailment_probs (textForAnalysis text) (candidate_labels.map hypotheses)
        = Except.ok probs0 ∧
      probs0.get? (candidate_labels.indexOf "intl-bias") = some v ∧
      _extract_biased_sentences P (textForAnalysis text) candidate_labels hypotheses
        = Except.ok ins ∧
      r = { labels := (sortPairsDesc (candidate_labels.zip
              (probs0.set (candidate_labels.indexOf "intl-bias")
                (min 1 (v + detect_international_bias_signal (textForAnalysis text)))))).map
                Prod.fst,
            scores := (sortPairsDesc (candidate_labels.zip
              (probs0.set (candidate_labels.indexOf "intl-bias")
                (min 1 (v + detect_international_bias_signal (textForAnalysis text)))))).map
                Prod.snd,
            calibrated_scores := some (((sortPairsDesc (candidate_labels.zip
              (probs0.set (candidate_labels.indexOf "intl-bias")
                (min 1 (v + detect_international_bias_signal (textForAnalysis text)))))).map
                Prod.snd).map calibrate_confidence),
            error := none, fallback := none, provider := some nm,
            sentence_insights := ins } := by
  unfold analyze_with_classifier_try at h
  obtain ⟨nm, hnm, h⟩ := except_bind_ok h
  obtain ⟨probs0, hp, h⟩ := except_bind_ok h
  obtain ⟨scores, hmid, h⟩ := except_bind_ok h
  have hmem : "intl-bias" ∈ candidate_labels := by decide
  rw [if_pos hmem] at hmid
  cases hv : probs0.get? (candidate_labels.indexOf "intl-bias") with
  | none => rw [hv] at hmid; simp at hmid
  | some v =>
    rw [hv] at hmid
    simp only [Except.ok.injEq] at hmid
    obtain ⟨ins, hins, h⟩ := except_bind_ok h
    simp only [Except.ok.injEq] at h
    subst hmid
    exact ⟨nm, probs0, v, ins, hnm, hp, hv, hins, h.symm⟩

/-! ### C5 -/

theorem inferredClassification_scores_bounds (kw : KeywordAnalysis) :
    ∀ s ∈ (inferredClassification kw).2, 0 ≤ s ∧ s ≤ 1 := by
  unfold inferredClassification
  split_ifs <;> decide

/-- C5 amended: on the model-backed path the labels are ordered descending
by the parallel scores, and (for a provider honoring the data model's [0,1]
probability contract) every score lies in [0,1]; on the keyword-inferred
paths (classifier failure, and `use_nlp=False`) every score is one of the
fixed confidences 0.5/0.7/0.8 — all in [0,1] — but the list is in
insertion order and not necessarily descending. -/
theorem classification_scores_sorted_and_in_range :
    (∀ (P : EntailmentProvider) (text : String) (r : ClassifierOut),
       (∀ premise hyps probs, P.entailment_probs premise hyps = .ok probs →
          ∀ s ∈ probs, 0 ≤ s ∧ s ≤ 1) →
       analyze_with_classifier_try P text = .ok r →
       r.scores.Pairwise (fun a b => b ≤ a) ∧ ∀ s ∈ r.scores, 0 ≤ s ∧ s ≤ 1) ∧
    (∀ text e : String,
       ∀ s ∈ (analyze_with_classifier_fallback text e).scores, 0 ≤ s ∧ s ≤ 1) ∧
    (∀ (P : EntailmentProvider) (text : String),
       ∀ s ∈ (analyze_full P text false).classification.scores, 0 ≤ s ∧ s ≤ 1) := by
  refine ⟨?_, ?_, ?_⟩
  · intro P text r hP htry
    obtain ⟨nm, probs0, v, ins, hnm, hp, hv, hins, hr⟩ :=
      analyze_with_classifier_try_ok P text r htry
    have hbounds : ∀ x ∈ probs0.set (candidate_labels.indexOf "intl-bias")
        (min 1 (v + detect_international_bias_signal (textForAnalysis text))),
        0 ≤ x ∧ x ≤ 1 := by
      intro x hx
      rcases List.mem_or_eq_of_mem_set hx with hx | rfl
      · exact hP _ _ _ hp x hx
      · constructor
        · refine le_min (by norm_num) (add_nonneg ?_ (intl_signal_nonneg _))
          exact (hP _ _ _ hp v (List.get?_mem hv)).1
        · exact min_le_left _ _
    constructor
    · rw [hr]
      have hsorted := sortPairsDesc_sorted (candidate_labels.zip
        (probs0.set (candidate_labels.indexOf "intl-bias")
          (min 1 (v + detect_international_bias_signal (textForAnalysis text)))))
      exact List.pairwise_map.2 hsorted
    · intro s hs
      rw [hr] at hs
      obtain ⟨p, hpmem, hps⟩ := List.mem_map.1 hs
      have hzip : p ∈ candidate_labels.zip
          (probs0.set (candidate_labels.indexOf "intl-bias")
            (min 1 (v + detect_international_bias_signal (textForAnalysis text)))) :=
        (sortPairsDesc_perm _).mem_iff.1 hpmem
      obtain ⟨a, b⟩ := p
      have hb := (List.of_mem_zip hzip).2
      rw [← hps]
      exact hbounds b hb
  · intro text e s hs
    have hmem : s ∈ (inferredClassification (detect_bias_keywords text)).2 :=
      List.mem_of_mem_take hs
    exact inferredClassification_scores_bounds _ s hmem
  · intro P text s hs
    have hmem : s ∈ (inferredClassification (detect_bias_keywords text)).2 :=
      List.mem_of_mem_take hs
    exact inferredClassification_scores_bounds _ s hmem

/-- C5 witness: the staged provider returns probabilities in [0,1] and its
try-body succeeds on the two-sentence text. -/
theorem classification_scores_sorted_and_in_range_witness :
    (analyze_with_classifier stagedProvider twoSentenceText).scores.Pairwise
      (fun a b => b ≤ a) := by
  have hok : analyze_with_classifier_try stagedProvider twoSentenceText
      = .ok (analyze_with_classifier stagedProvider twoSentenceText) := by rfl
  have h := (classification_scores_sorted_and_in_range.1 stagedProvider twoSentenceText
    (analyze_with_classifier stagedProvider twoSentenceText) ?_ hok).1
  · exact h
  · intro premise hyps probs hp
    simp only [stagedProvider] at hp
    split_ifs at hp <;> (injection hp with hp; subst hp; decide)

/-! ### C4 -/

theorem chosenTop_ne_neutral (sig : ℚ) (p q : String × ℚ)
    (h : chosenTop sig p = some q) : q.1 ≠ "neutral" := by
  obtain ⟨l0, s0⟩ := p
  unfold chosenTop at h
  dsimp only at h
  by_cases h1 : l0 = "neutral"
  · rw [if_pos h1] at h
    by_cases h2 : 0 < sig
    · rw [if_pos h2] at h
      simp only [Option.some.injEq] at h
      rw [← h]
      show ("intl-bias" : String) ≠ "neutral"
      decide
    · rw [if_neg h2] at h
      exact absurd h (by simp)
  · rw [if_neg h1] at h
    by_cases h3 : l0 ≠ "intl-bias" ∧ (0.05 : ℚ) ≤ sig
    · rw [if_pos h3] at h
      simp only [Option.some.injEq] at h
      rw [← h]
      show ("intl-bias" : String) ≠ "neutral"
      decide
    · rw [if_neg h3] at h
      simp only [Option.some.injEq] at h
      rw [← h]
      exact h1

theorem extractLoop_props (P : EntailmentProvider) (labels : List String)
    (hyps : String → String) :
    ∀ (sents : List (String × Nat × Nat)) (high low out : List SentenceInsight),
      (∀ e ∈ high, e.label ≠ "neutral" ∧ e.confidence_level = "high") →
      (∀ e ∈ low, e.label ≠ "neutral" ∧ e.confidence_level = "low") →
      extractLoop P labels hyps sents high low = .ok out →
      out.length ≤ 5 ∧ (∀ e ∈ out, e.label ≠ "neutral") ∧
      ∃ hs ls, out = hs ++ ls ∧ (∀ e ∈ hs, e.confidence_level = "high") ∧
        (∀ e ∈ ls, e.confidence_level = "low")
  | [], high, low, out, hh, hl, heq => by
    simp only [extractLoop, Except.ok.injEq] at heq
    subst heq
    refine ⟨?_, ?_, high.take 5, low.take (5 - high.length),
      List.take_append_eq_append_take, ?_, ?_⟩
    · exact List.length_take_le 5 _
    · intro e he
      rcases List.mem_append.1 (List.mem_of_mem_take he) with h | h
      · exact (hh e h).1
      · exact (hl e h).1
    · intro e he
      exact (hh e (List.mem_of_mem_take he)).2
    · intro e he
      exact (hl e (List.mem_of_mem_take he)).2
  | (sentence, start, stop) :: rest, high, low, out, hh, hl, heq => by
    simp only [extractLoop] at heq
    by_cases hlen : sentence.length < 25
    · rw [if_pos hlen] at heq
      exact extractLoop_props P labels hyps rest high low out hh hl heq
    · rw [if_neg hlen] at heq
      cases hpe : P.entailment_probs sentence (labels.map hyps) with
      | error e => rw [hpe] at heq; simp at heq
      | ok probs0 =>
        rw [hpe] at heq
        dsimp only at heq
        cases hb : boostProbs labels (detect_international_bias_signal sentence) probs0 with
        | error e => rw [hb] at heq; simp at heq
        | ok probs =>
          rw [hb] at heq
          dsimp only at heq
          cases hd : (sortPairsDesc (labels.zip probs)).head? with
          | none => rw [hd] at heq; simp at heq
          | some p =>
            rw [hd] at heq
            dsimp only at heq
            cases hc : chosenTop (detect_international_bias_signal sentence) p with
            | none =>
              rw [hc] at heq
              dsimp only at heq
              exact extractLoop_props P labels hyps rest high low out hh hl heq
            | some q =>
              rw [hc] at heq
              dsimp only at heq
              have hql := chosenTop_ne_neutral _ p q hc
              by_cases hts : (0.4 : ℚ) ≤ q.2
              · rw [if_pos hts] at heq
                by_cases hfull : 5 ≤ high.length + 1
                · rw [if_pos hfull] at heq
                  simp only [Except.ok.injEq] at heq
                  subst heq
                  refine ⟨?_, ?_,
                    (high ++ [insightFor sentence start stop q]).take 5,
                    low.take (5 - (high ++ [insightFor sentence start stop q]).length),
                    List.take_append_eq_append_take, ?_, ?_⟩
                  · exact List.length_take_le 5 _
                  · intro e he
                    rcases List.mem_append.1 (List.mem_of_mem_take he) with h | h
                    · rcases List.mem_append.1 h with h | h
                      · exact (hh e h).1
                      · rw [List.mem_singleton.1 h]
                        exact hql
                    · exact (hl e h).1
                  · intro e he
                    rcases List.mem_append.1 (List.mem_of_mem_take he) with h | h
                    · exact (hh e h).2
                    · rw [List.mem_singleton.1 h]
                      exact if_pos hts
                  · intro e he
                    exact (hl e (List.mem_of_mem_take he)).2
                · rw [if_neg hfull] at heq
                  refine extractLoop_props P labels hyps rest
                    (high ++ [insightFor sentence start stop q]) low out ?_ hl heq
                  intro e he
                  rcases List.mem_append.1 he with h | h
                  · exact hh e h
                  · rw [List.mem_singleton.1 h]
                    exact ⟨hql, if_pos hts⟩
              · rw [if_neg hts] at heq
                refine extractLoop_props P labels hyps rest high
                  (low ++ [insightFor sentence start stop q]) out hh ?_ heq
                intro e he
                rcases List.mem_append.1 he with h | h
                · exact hl e h
                · rw [List.mem_singleton.1 h]
                  exact ⟨hql, if_neg hts⟩

theorem extract_insights_props (P : EntailmentProvider) (text : String)
    (labels : List String) (hyps : String → String) (ins : List SentenceInsight)
    (h : _extract_biased_sentences P text labels hyps = .ok ins) :
    ins.length ≤ 5 ∧ (∀ e ∈ ins, e.label ≠ "neutral") ∧
    ∃ hs ls, ins = hs ++ ls ∧ (∀ e ∈ hs, e.confidence_level = "high") ∧
      (∀ e ∈ ls, e.confidence_level = "low") := by
  unfold _extract_biased_sentences at h
  split_ifs at h with h0
  · simp only [Except.ok.injEq] at h
    subst h
    exact ⟨by simp, by simp, [], [], by simp, by simp, by simp⟩
  · exact extractLoop_props P labels hyps _ [] [] ins (by simp) (by simp) h

/-- C4 amended: for every provider and text, the sentence insights of the
classification step contain at most 5 entries, every entry has a
non-neutral label, and the list is a high-confidence block (threshold 0.4,
in document order) followed by a low-confidence block (in document order)
— high-confidence findings are preferred and low-confidence ones only
back-fill — but neither block is sorted by confidence descending. -/
theorem sentence_insights_shape (P : EntailmentProvider) (text : String) :
    (analyze_with_classifier P text).sentence_insights.length ≤ 5 ∧
    (∀ e ∈ (analyze_with_classifier P text).sentence_insights, e.label ≠ "neutral") ∧
    ∃ hs ls, (analyze_with_classifier P text).sentence_insights = hs ++ ls ∧
      (∀ e ∈ hs, e.confidence_level = "high") ∧
      (∀ e ∈ ls, e.confidence_level = "low") := by
  unfold analyze_with_classifier
  split_ifs with hbl
  · exact ⟨by simp, by simp, [], [], by simp, by simp, by simp⟩
  · cases htry : analyze_with_classifier_try P text with
    | error e =>
      exact ⟨by simp [analyze_with_classifier_fallback],
        by simp [analyze_with_classifier_fallback], [], [],
        by simp [analyze_with_classifier_fallback], by simp, by simp⟩
    | ok r =>
      obtain ⟨nm, probs0, v, ins, hnm, hp, hv, hins, hr⟩ :=
        analyze_with_classifier_try_ok P text r htry
      have hprops := extract_insights_props P (textForAnalysis text)
        candidate_labels hypotheses ins hins
      have hfield : r.sentence_insights = ins := by rw [hr]
      simpa [hfield] using hprops

/-! ### C1: the reconciliation loop -/

theorem reconcile_zero (vals : List (String × ℤ)) (idx fuel : ℕ) :
    reconcile vals 0 idx fuel = vals := by
  cases fuel with
  | zero => rfl
  | succ n => simp [reconcile]

theorem map_fst_set : ∀ (vals : List (String × ℤ)) (i : ℕ) (k : String) (v w : ℤ),
    vals.get? i = some (k, v) →
    (vals.set i (k, w)).map Prod.fst = vals.map Prod.fst
  | [], i, k, v, w, h => by simp at h
  | p :: rest, 0, k, v, w, h => by
    simp only [List.get?] at h
    injection h with h
    rw [h]
    simp [List.set]
  | p :: rest, i + 1, k, v, w, h => by
    simp only [List.get?] at h
    simp only [List.set, List.map_cons]
    rw [map_fst_set rest i k v w h]

theorem sum_snd_set : ∀ (vals : List (String × ℤ)) (i : ℕ) (k : String) (v w : ℤ),
    vals.get? i = some (k, v) →
    ((vals.set i (k, w)).map Prod.snd).sum = (vals.map Prod.snd).sum - v + w
  | [], i, k, v, w, h => by simp at h
  | p :: rest, 0, k, v, w, h => by
    simp only [List.get?] at h
    injection h with h
    rw [h]
    simp [List.set]
    ring
  | p :: rest, i + 1, k, v, w, h => by
    simp only [List.get?] at h
    simp only [List.set, List.map_cons, List.sum_cons]
    rw [sum_snd_set rest i k v w h]
    ring

theorem exists_slot_gt_one : ∀ (vals : List (String × ℤ)),
    (∀ p ∈ vals, 1 ≤ p.2) → ((vals.length : ℤ) < (vals.map Prod.snd).sum) →
    ∃ j, j < vals.length ∧ ∃ p, vals.get? j = some p ∧ 1 < p.2
  | [], _, hs => by simp at hs
  | p :: rest, h1, hs => by
    by_cases hp : 1 < p.2
    · exact ⟨0, by simp, p, rfl, hp⟩
    · have hrest : ((rest.length : ℤ) < (rest.map Prod.snd).sum) := by
        simp only [List.length_cons, List.map_cons, List.sum_cons] at hs
        have hge := h1 p (by simp)
        push_cast at hs
        omega
      obtain ⟨j, hj, q, hq, hq2⟩ := exists_slot_gt_one rest
        (fun q hq => h1 q (by simp [hq])) hrest
      exact ⟨j + 1, by simpa using hj, q, hq, hq2⟩

theorem reconcile_pos :
    ∀ (fuel : ℕ) (vals : List (String × ℤ)) (d idx : ℕ),
      vals.length = 7 → 0 < d →
      (vals.map Prod.snd).sum = 100 + (d : ℤ) →
      (∀ p ∈ vals, 1 ≤ p.2) →
      (∃ m, m < 7 ∧ 7 * (d - 1) + m + 1 ≤ fuel ∧
        ∃ p, vals.get? ((idx + m) % 7) = some p ∧ 1 < p.2) →
      (reconcile vals (d : ℤ) idx fuel).map Prod.fst = vals.map Prod.fst ∧
      ((reconcile vals (d : ℤ) idx fuel).map Prod.snd).sum = 100 ∧
      ∀ p ∈ reconcile vals (d : ℤ) idx fuel, 1 ≤ p.2
  | 0, vals, d, idx => by
    intro hlen hd hsum hge hwit
    obtain ⟨m, hm7, hfuel, _⟩ := hwit
    omega
  | fuel + 1, vals, d, idx => by
    intro hlen hd hsum hge hwit
    obtain ⟨m, hm7, hfuel, pw, hpw, hpw2⟩ := hwit
    have hdz : ¬((d : ℤ) = 0) := by omega
    have hlpos : idx % vals.length < vals.length := by
      rw [hlen]
      exact Nat.mod_lt idx (by norm_num)
    obtain ⟨q, hq⟩ : ∃ q, vals.get? (idx % vals.length) = some q :=
      ⟨_, List.get?_eq_get hlpos⟩
    obtain ⟨k, v⟩ := q
    by_cases hv : 1 < v
    · have hred : reconcile vals (d : ℤ) idx (fuel + 1) =
          reconcile (vals.set (idx % vals.length) (k, v - 1)) ((d : ℤ) - 1)
            (idx + 1) fuel := by
        simp only [reconcile]
        rw [if_neg hdz, hq]
        dsimp only
        rw [if_pos ⟨by omega, hv⟩]
      rw [hred]
      have hge' : ∀ p ∈ vals.set (idx % vals.length) (k, v - 1), 1 ≤ p.2 := by
        intro p hp
        rcases List.mem_or_eq_of_mem_set hp with h | h
        · exact hge p h
        · rw [h]
          show (1 : ℤ) ≤ v - 1
          omega
      have hlen' : (vals.set (idx % vals.length) (k, v - 1)).length = 7 := by
        rw [List.length_set]
        exact hlen
      have hsum' := sum_snd_set vals (idx % vals.length) k v (v - 1) hq
      rcases Nat.lt_or_ge 1 d with hd2 | hd2
      · have hcast : (d : ℤ) - 1 = ((d - 1 : ℕ) : ℤ) := by omega
        rw [hcast, ← map_fst_set vals (idx % vals.length) k v (v - 1) hq]
        refine reconcile_pos fuel _ (d - 1) (idx + 1) hlen' (by omega) (by rw [hsum']; omega)
          hge' ?_
        obtain ⟨j, hj, pb, hpb, hpb2⟩ := exists_slot_gt_one _ hge' (by
          rw [hlen', hsum']
          push_cast
          omega)
        rw [hlen'] at hj
        refine ⟨(j + 7 - ((idx + 1) % 7)) % 7, by omega, by omega, pb, ?_, hpb2⟩
        have harg : ((idx + 1) + ((j + 7 - ((idx + 1) % 7)) % 7)) % 7 = j := by omega
        rw [harg]
        exact hpb
      · have hd1 : d = 1 := by omega
        subst hd1
        have hzero : ((1 : ℕ) : ℤ) - 1 = 0 := by norm_num
        rw [hzero, reconcile_zero]
        refine ⟨map_fst_set vals _ k v (v - 1) hq, ?_, hge'⟩
        rw [hsum']
        omega
    · have hred : reconcile vals (d : ℤ) idx (fuel + 1) =
          reconcile vals (d : ℤ) (idx + 1) fuel := by
        simp only [reconcile]
        rw [if_neg hdz, hq]
        dsimp only
        rw [if_neg (fun hcon => hv hcon.2), if_neg (by omega : ¬((d : ℤ) < 0))]
      rw [hred]
      have hm0 : m ≠ 0 := by
        intro h0
        subst h0
        rw [Nat.add_zero, ← hlen, hq] at hpw
        injection hpw with h
        rw [← h] at hpw2
        exact hv hpw2
      refine reconcile_pos fuel vals d (idx + 1) hlen hd hsum hge
        ⟨m - 1, by omega, by omega, pw, ?_, hpw2⟩
      have harg : (idx + 1) + (m - 1) = idx + m := by omega
      rw [harg]
      exact hpw

theorem reconcile_neg :
    ∀ (fuel : ℕ) (vals : List (String × ℤ)) (n idx : ℕ),
      vals.length = 7 → 0 < n → n ≤ fuel →
      (vals.map Prod.snd).sum = 100 - (n : ℤ) →
      (∀ p ∈ vals, 1 ≤ p.2) →
      (reconcile vals (-(n : ℤ)) idx fuel).map Prod.fst = vals.map Prod.fst ∧
      ((reconcile vals (-(n : ℤ)) idx fuel).map Prod.snd).sum = 100 ∧
      ∀ p ∈ reconcile vals (-(n : ℤ)) idx fuel, 1 ≤ p.2
  | 0, vals, n, idx => by
    intro _ hn hnf _ _
    omega
  | fuel + 1, vals, n, idx => by
    intro hlen hn hnf hsum hge
    have hdz : ¬(-(n : ℤ) = 0) := by omega
    have hlpos : idx % vals.length < vals.length := by
      rw [hlen]
      exact Nat.mod_lt idx (by norm_num)
    obtain ⟨q, hq⟩ : ∃ q, vals.get? (idx % vals.length) = some q :=
      ⟨_, List.get?_eq_get hlpos⟩
    obtain ⟨k, v⟩ := q
    have hvge : (1 : ℤ) ≤ v := hge (k, v) (List.get?_mem hq)
    have hred : reconcile vals (-(n : ℤ)) idx (fuel + 1) =
        reconcile (vals.set (idx % vals.length) (k, v + 1)) (-(n : ℤ) + 1)
          (idx + 1) fuel := by
      simp only [reconcile]
      rw [if_neg hdz, hq]
      dsimp only
      rw [if_neg (by omega : ¬(0 < -(n : ℤ) ∧ 1 < v)),
        if_pos (by omega : -(n : ℤ) < 0)]
    rw [hred]
    have hge' : ∀ p ∈ vals.set (idx % vals.length) (k, v + 1), 1 ≤ p.2 := by
      intro p hp
      rcases List.mem_or_eq_of_mem_set hp with h | h
      · exact hge p h
      · rw [h]
        show (1 : ℤ) ≤ v + 1
        omega
    have hlen' : (vals.set (idx % vals.length) (k, v + 1)).length = 7 := by
      rw [List.length_set]
      exact hlen
    have hsum' := sum_snd_set vals (idx % vals.length) k v (v + 1) hq
    rcases Nat.lt_or_ge 1 n with hn2 | hn2
    · have hcast : -(n : ℤ) + 1 = -((n - 1 : ℕ) : ℤ) := by omega
      rw [hcast, ← map_fst_set vals (idx % vals.length) k v (v + 1) hq]
      exact reconcile_neg fuel _ (n - 1) (idx + 1) hlen' (by omega) (by omega)
        (by rw [hsum']; omega) hge'
    · have hn1 : n = 1 := by omega
      subst hn1
      have hzero : -((1 : ℕ) : ℤ) + 1 = 0 := by norm_num
      rw [hzero, reconcile_zero]
      refine ⟨map_fst_set vals _ k v (v + 1) hq, ?_, hge'⟩
      rw [hsum']
      omega

/-- The reconciliation pass on any 7-slot integer table with every value at
least 1 and total at most 107 lands exactly on 100 without disturbing keys
or the 1-floor (fuel 500 is ample). -/
theorem reconcile_stage (R : List (String × ℤ)) (hlen : R.length = 7)
    (hge : ∀ p ∈ R, 1 ≤ p.2)
    (hub : (R.map Prod.snd).sum ≤ 107) :
    (reconcile R ((R.map Prod.snd).sum - 100) 0 500).map Prod.fst = R.map Prod.fst ∧
    ((reconcile R ((R.map Prod.snd).sum - 100) 0 500).map Prod.snd).sum = 100 ∧
    ∀ p ∈ reconcile R ((R.map Prod.snd).sum - 100) 0 500, 1 ≤ p.2 := by
  have hlb : (7 : ℤ) ≤ (R.map Prod.snd).sum := by
    have h1 : ((R.map (fun _ => (1 : ℤ))).sum ≤ (R.map Prod.snd).sum) :=
      List.sum_le_sum (fun p hp => hge p hp)
    rw [List.map_const', List.sum_replicate, hlen] at h1
    simpa using h1
  rcases lt_trichotomy ((R.map Prod.snd).sum) 100 with hc | hc | hc
  · have hcast : (R.map Prod.snd).sum - 100 = -(((100 - (R.map Prod.snd).sum).toNat : ℕ) : ℤ) := by
      omega
    rw [hcast]
    exact reconcile_neg 500 R (100 - (R.map Prod.snd).sum).toNat 0 hlen (by omega)
      (by omega) (by omega) hge
  · have h0 : (100 : ℤ) - 100 = 0 := by norm_num
    rw [hc, h0, reconcile_zero]
    exact ⟨rfl, hc, hge⟩
  · have hcast : (R.map Prod.snd).sum - 100 = ((((R.map Prod.snd).sum - 100).toNat : ℕ) : ℤ) := by
      omega
    rw [hcast]
    refine reconcile_pos 500 R ((R.map Prod.snd).sum - 100).toNat 0 hlen (by omega)
      (by omega) hge ?_
    obtain ⟨j, hj, pb, hpb, hpb2⟩ := exists_slot_gt_one R hge (by rw [hlen]; push_cast; omega)
    rw [hlen] at hj
    refine ⟨j, by omega, by omega, pb, ?_, hpb2⟩
    have harg : (0 + j) % 7 = j := by omega
    rw [harg]
    exact hpb

/-! ### C1: the smoothing, normalization and rounding stages -/

theorem smoothed_fst (c : List (String × ℚ)) :
    (smoothedContributions c).map Prod.fst = c.map Prod.fst := by
  unfold smoothedContributions
  rw [List.map_map]
  rfl

theorem smoothed_snd (c : List (String × ℚ)) :
    (smoothedContributions c).map Prod.snd = c.map (fun p => p.2 + 0.35) := by
  unfold smoothedContributions
  rw [List.map_map]
  rfl

theorem smoothed_sum (c : List (String × ℚ)) (hpos : ∀ p ∈ c, 0 ≤ p.2) :
    (c.length : ℚ) * 0.35 ≤ ((smoothedContributions c).map Prod.snd).sum := by
  rw [smoothed_snd, List.sum_map_add]
  have h1 : 0 ≤ (c.map fun p : String × ℚ => p.2).sum := by
    refine List.sum_nonneg ?_
    intro x hx
    obtain ⟨p, hp, rfl⟩ := List.mem_map.1 hx
    exact hpos p hp
  have h2 : (c.map fun _ : String × ℚ => (0.35 : ℚ)).sum = c.length * 0.35 := by
    rw [List.map_const', List.sum_replicate, nsmul_eq_mul]
  rw [h2]
  linarith

theorem smoothed_sum_pos (c : List (String × ℚ)) (hpos : ∀ p ∈ c, 0 ≤ p.2)
    (hne : c ≠ []) : 0 < ((smoothedContributions c).map Prod.snd).sum := by
  have h1 := smoothed_sum c hpos
  have h2 : 0 < c.length := List.length_pos.2 hne
  have h3 : (1 : ℚ) ≤ (c.length : ℚ) := by exact_mod_cast h2
  nlinarith

theorem percentagesOf_eq (c : List (String × ℚ)) (hpos : ∀ p ∈ c, 0 ≤ p.2)
    (hne : c ≠ []) :
    percentagesOf c = (smoothedContributions c).map
      (fun p => (p.1, p.2 / ((smoothedContributions c).map Prod.snd).sum * 100)) := by
  have hT := smoothed_sum_pos c hpos hne
  have hbe : ((((smoothedContributions c).map Prod.snd).sum) == 0) = false :=
    beq_eq_false_iff_ne.2 (ne_of_gt hT)
  simp only [percentagesOf, hbe, Bool.false_eq_true, if_false]

theorem smoothed_pos (c : List (String × ℚ)) (hpos : ∀ p ∈ c, 0 ≤ p.2) :
    ∀ q ∈ smoothedContributions c, 0 ≤ q.2 := by
  intro q hq
  obtain ⟨r, hr, rfl⟩ := List.mem_map.1 hq
  have := hpos r hr
  show (0 : ℚ) ≤ r.2 + 0.35
  linarith

theorem percentagesOf_pos (c : List (String × ℚ)) (hpos : ∀ p ∈ c, 0 ≤ p.2)
    (hne : c ≠ []) : ∀ p ∈ percentagesOf c, 0 ≤ p.2 := by
  have hT := smoothed_sum_pos c hpos hne
  rw [percentagesOf_eq c hpos hne]
  intro p hp
  obtain ⟨q, hq, rfl⟩ := List.mem_map.1 hp
  have hq2 := smoothed_pos c hpos q hq
  show (0 : ℚ) ≤ q.2 / ((smoothedContributions c).map Prod.snd).sum * 100
  exact mul_nonneg (div_nonneg hq2 (le_of_lt hT)) (by norm_num)

theorem percentagesOf_sum (c : List (String × ℚ)) (hpos : ∀ p ∈ c, 0 ≤ p.2)
    (hne : c ≠ []) : ((percentagesOf c).map Prod.snd).sum = 100 := by
  have hT := smoothed_sum_pos c hpos hne
  rw [percentagesOf_eq c hpos hne, List.map_map]
  have hc : (Prod.snd ∘ fun p : String × ℚ =>
      (p.1, p.2 / ((smoothedContributions c).map Prod.snd).sum * 100)) =
      fun p : String × ℚ =>
        p.2 * (100 / ((smoothedContributions c).map Prod.snd).sum) := by
    funext p
    show p.2 / _ * 100 = _
    ring
  rw [hc, List.sum_map_mul_right (smoothedContributions c) (fun p => p.2)
    (100 / ((smoothedContributions c).map Prod.snd).sum)]
  have hTT : (List.map (fun p : String × ℚ => p.2) (smoothedContributions c)).sum =
      ((smoothedContributions c).map Prod.snd).sum := rfl
  rw [hTT, mul_comm, div_mul_cancel₀ _ (ne_of_gt hT)]

theorem percentagesOf_fst (c : List (String × ℚ)) :
    (percentagesOf c).map Prod.fst = c.map Prod.fst := by
  simp only [percentagesOf]
  rw [List.map_map]
  exact smoothed_fst c

theorem percentagesOf_len (c : List (String × ℚ)) :
    (percentagesOf c).length = c.length := by
  simp [percentagesOf, smoothedContributions]

theorem roundedOf_fst (c : List (String × ℚ)) :
    (roundedOf c).map Prod.fst = c.map Prod.fst := by
  unfold roundedOf
  rw [List.map_map]
  exact percentagesOf_fst c

theorem roundedOf_len (c : List (String × ℚ)) :
    (roundedOf c).length = c.length := by
  rw [roundedOf, List.length_map]
  exact percentagesOf_len c

theorem roundedOf_ge (c : List (String × ℚ)) :
    ∀ p ∈ roundedOf c, 1 ≤ p.2 := by
  unfold roundedOf
  intro p hp
  obtain ⟨q, hq, rfl⟩ := List.mem_map.1 hp
  exact le_max_left _ _

theorem roundedOf_sum_le (c : List (String × ℚ)) (hpos : ∀ p ∈ c, 0 ≤ p.2)
    (hne : c ≠ []) (hlen : c.length = 7) :
    ((roundedOf c).map Prod.snd).sum ≤ 107 := by
  have hppos := percentagesOf_pos c hpos hne
  have hsum := percentagesOf_sum c hpos hne
  have hlenp : (percentagesOf c).length = 7 := by rw [percentagesOf_len, hlen]
  have hkey : ((((roundedOf c).map Prod.snd).sum : ℤ) : ℚ) ≤ 107 := by
    have hmap : (roundedOf c).map Prod.snd =
        (percentagesOf c).map (fun p => max 1 (pyRound p.2)) := by
      unfold roundedOf
      rw [List.map_map]
      rfl
    rw [hmap, Int.cast_list_sum, List.map_map]
    have hcomp : (Int.cast ∘ fun p : String × ℚ => max 1 (pyRound p.2)) =
        fun p : String × ℚ => ((max 1 (pyRound p.2) : ℤ) : ℚ) := rfl
    rw [hcomp]
    have hle : ((percentagesOf c).map (fun p : String × ℚ =>
        ((max 1 (pyRound p.2) : ℤ) : ℚ))).sum ≤
        ((percentagesOf c).map (fun p => p.2 + 1)).sum := by
      refine List.sum_le_sum ?_
      intro p hp
      have h0 : 0 ≤ p.2 := hppos p hp
      push_cast
      refine max_le (by linarith) ?_
      have hub := pyRound_le p.2
      linarith
    refine le_trans hle ?_
    rw [List.sum_map_add]
    have h2 : ((percentagesOf c).map fun p : String × ℚ => p.2).sum = 100 := hsum
    have h3 : ((percentagesOf c).map fun _ : String × ℚ => (1 : ℚ)).sum = 7 := by
      rw [List.map_const', List.sum_replicate, nsmul_eq_mul, hlenp]
      norm_num
    rw [h2, h3]
    norm_num
  exact_mod_cast hkey

theorem breakdownFrom_invariants (c : List (String × ℚ)) (hlen : c.length = 7)
    (hpos : ∀ p ∈ c, 0 ≤ p.2) :
    List.Perm ((breakdownFrom c).map Prod.fst) (c.map Prod.fst) ∧
    ((breakdownFrom c).map Prod.snd).sum = 100 ∧
    ∀ p ∈ breakdownFrom c, 1 ≤ p.2 := by
  have hne : c ≠ [] := by
    intro h
    rw [h] at hlen
    simp at hlen
  have hperm := sortPairsDesc_perm (roundedOf c)
  have hKlen : (sortPairsDesc (roundedOf c)).length = 7 := by
    rw [hperm.length_eq, roundedOf_len, hlen]
  have hKge : ∀ p ∈ sortPairsDesc (roundedOf c), 1 ≤ p.2 := by
    intro p hp
    exact roundedOf_ge c p (hperm.mem_iff.1 hp)
  have hKsum : ((sortPairsDesc (roundedOf c)).map Prod.snd).sum =
      ((roundedOf c).map Prod.snd).sum := (hperm.map Prod.snd).sum_eq
  have hub : ((sortPairsDesc (roundedOf c)).map Prod.snd).sum ≤ 107 := by
    rw [hKsum]
    exact roundedOf_sum_le c hpos hne hlen
  have hstage := reconcile_stage (sortPairsDesc (roundedOf c)) hKlen hKge hub
  have hbf : breakdownFrom c = reconcile (sortPairsDesc (roundedOf c))
      (((sortPairsDesc (roundedOf c)).map Prod.snd).sum - 100) 0 500 := by
    simp only [breakdownFrom]
    rw [hKsum]
  rw [hbf]
  refine ⟨?_, hstage.2.1, hstage.2.2⟩
  rw [hstage.1]
  have hfst : (roundedOf c).map Prod.fst = c.map Prod.fst := roundedOf_fst c
  exact hfst ▸ (hperm.map Prod.fst)

theorem _keyword_contribution_nonneg (kw : KeywordAnalysis) (key : String)
    (w : ℕ) : 0 ≤ _keyword_contribution kw key w :=
  le_min (by positivity) (by norm_num)

theorem classifierContribution_nonneg (cls : Option ClassifierOut) (cat : String) :
    0 ≤ classifierContribution cls cat := by
  unfold classifierContribution
  cases cls with
  | none => exact le_rfl
  | some cc =>
    dsimp only
    split_ifs with h
    · refine foldl_monotone_of_mem _ _ ?_ 0
      intro b a ha
      have hmem := (List.mem_filter.1 ha).2
      simp only [decide_eq_true_eq, Bool.and_eq_true] at hmem
      have h01 : (0.1 : ℚ) ≤ a.2 := hmem.2.1
      linarith
    · exact le_rfl

theorem rawContributions_nonneg (kw : KeywordAnalysis) (cls : Option ClassifierOut)
    (intl : Option ℤ) : ∀ p ∈ rawContributions kw cls intl, 0 ≤ p.2 := by
  intro p hp
  simp only [rawContributions, List.mem_cons, List.not_mem_nil, or_false] at hp
  rcases hp with rfl | rfl | rfl | rfl | rfl | rfl | rfl
  · exact add_nonneg (add_nonneg (_keyword_contribution_nonneg kw _ _)
      (_keyword_contribution_nonneg kw _ _)) (classifierContribution_nonneg cls _)
  · exact add_nonneg (_keyword_contribution_nonneg kw _ _)
      (classifierContribution_nonneg cls _)
  · exact add_nonneg (_keyword_contribution_nonneg kw _ _)
      (classifierContribution_nonneg cls _)
  · exact add_nonneg (_keyword_contribution_nonneg kw _ _)
      (classifierContribution_nonneg cls _)
  · exact add_nonneg (_keyword_contribution_nonneg kw _ _)
      (classifierContribution_nonneg cls _)
  · exact add_nonneg (_keyword_contribution_nonneg kw _ _)
      (classifierContribution_nonneg cls _)
  · refine add_nonneg ?_ (classifierContribution_nonneg cls _)
    cases intl with
    | none => exact le_rfl
    | some s => exact le_max_right _ _

/-- C1: for every keyword analysis, classifier result and international
score, `calculate_bias_breakdown` returns a mapping over exactly the seven
bias categories (including `international_bias`) whose integer values sum
to exactly 100 and are each at least 1 (hence non-negative). -/
theorem calculate_bias_breakdown_invariants (kw : KeywordAnalysis)
    (cls : Option ClassifierOut) (intl : Option ℤ) :
    List.Perm ((calculate_bias_breakdown kw cls intl).map Prod.fst)
      ["gender_bias", "age_bias", "disability_bias", "cultural_fit_bias",
       "exclusionary_language", "appearance_bias", "international_bias"] ∧
    ((calculate_bias_breakdown kw cls intl).map Prod.snd).sum = 100 ∧
    ∀ p ∈ calculate_bias_breakdown kw cls intl, 1 ≤ p.2 := by
  have h := breakdownFrom_invariants (rawContributions kw cls intl) rfl
    (rawContributions_nonneg kw cls intl)
  refine ⟨?_, h.2.1, h.2.2⟩
  have hfst : (rawContributions kw cls intl).map Prod.fst =
      ["gender_bias", "age_bias", "disability_bias", "cultural_fit_bias",
       "exclusionary_language", "appearance_bias", "international_bias"] := rfl
  exact hfst ▸ h.1
